import Mathlib

/-!
# The SAD template tracker of libmv (`src/libmv/tracking/sad.cc`)

A shallow embedding of `sample`, `lround`, `SamplePattern`, `SAD` and `Track`.

Conventions of the embedding.

* A `ubyte*` is the memory seen from the pointer: a total function from the
  (signed) index to a byte.  Reads outside the caller's buffer are therefore
  defined in the model; the source leaves them to the caller.
* `int` is the type of mathematical integers (signed overflow is undefined
  behaviour in the source and is not given a meaning here); `/` and `%` on
  `int` truncate toward zero.
* `uint` is a natural number kept below `2^32`: every `uint` operation is
  reduced modulo `2^32`.
* `float` is idealised as an exact rational: no rounding of `float`
  arithmetic is modelled.  The idealisation agrees with binary32 arithmetic
  wherever every intermediate value is representable: integers below `2^24`
  in `SamplePattern`, multiples of `1/16` below `2^20` in `Track`.  A
  statement that depends on a `float` step carries such a bound as a
  hypothesis.  The final `uint / sqrt(uint)` quotient is kept symbolically
  (numerator and radicand) and interpreted in the reals.
* `lround` returns a 32-bit `int`: its result is cut to 32 bits as each
  build of the source does.
-/

namespace libmv

/-! ## Machine types -/

/-- Modelled from the spec: `ubyte` (declared in the absent `sad.h`) is an
8-bit unsigned intensity. -/
abbrev ubyte := Fin 256

/-- A `ubyte*`, as the memory seen from it: `p i` is `p[i]`. -/
abbrev Ptr := Int → ubyte

/-- The byte `p[i]` promoted to `int`. -/
def rd (p : Ptr) (i : Int) : Int := ((p i).val : Int)

/-- The pointer `&p[k]` (equivalently `p + k`). -/
def offset (p : Ptr) (k : Int) : Ptr := fun i => p (k + i)

/-- The assignment `p[i] = b`. -/
def store (p : Ptr) (i : Int) (b : ubyte) : Ptr := fun t => if t = i then b else p t

/-- Conversion of an `int` to `ubyte` (reduction modulo `2^8`). -/
def toUbyte (z : Int) : ubyte := Fin.ofNat (z % 256).toNat

/-- Modelled from the spec: `uint` (declared in the absent `sad.h`) is the
unsigned integer type, taken to be 32 bits wide; this is its modulus. -/
def UINT : Nat := 4294967296

/-- Conversion of an `int` to `uint` (reduction modulo `2^32`). -/
def toUint (z : Int) : Nat := (z % 4294967296).toNat

/-- The `uint` sum `a + b`. -/
def uadd (a b : Nat) : Nat := (a + b) % UINT

/-- The `uint` difference `a - b`. -/
def usub (a b : Nat) : Nat := toUint ((a : Int) - (b : Int))

/-- The `uint` product `a * b`. -/
def umul (a b : Nat) : Nat := (a * b) % UINT

/-- Conversion of a `float` to `int`: truncation toward zero. -/
def truncToInt (q : ℚ) : Int := Int.tdiv q.num q.den

/-- The loop `for (int i = lo; i < lo + n; i++) body`, as the iteration of a
state transformer: the body for `lo + n - 1` runs last. -/
def iter {σ : Type} (lo : Int) : Nat → (Int → σ → σ) → σ → σ
  | 0, _, s => s
  | n + 1, body, s => body (lo + n) (iter lo n body s)

/-- The loop `for (int i = lo; i < hi; i++) body`. -/
def forLoop {σ : Type} (lo hi : Int) (body : Int → σ → σ) (s : σ) : σ :=
  iter lo (hi - lo).toNat body s

/-! ## `vec2`, `mat32` and `operator*` -/

/-- The source's `struct vec2 { float x,y; }`. -/
structure vec2 where
  x : ℚ
  y : ℚ
deriving DecidableEq

/-- Modelled from the spec: `mat32` (declared in the absent `sad.h`) is the
affine position, six floating values of a 2x3 matrix in row-major order
with the translation in the last column; `mIJ` is the source's `m(I,J)`. -/
structure mat32 where
  m00 : ℚ
  m01 : ℚ
  m02 : ℚ
  m10 : ℚ
  m11 : ℚ
  m12 : ℚ
deriving DecidableEq

/-- The source's `operator*(mat32 m, vec2 v)`. -/
def mat32.mulVec (m : mat32) (v : vec2) : vec2 :=
  ⟨v.x * m.m00 + v.y * m.m01 + m.m02, v.x * m.m10 + v.y * m.m11 + m.m12⟩

/-! ## `sample` and `lround` -/

/-- The source's `sample<k>`: fixed point bilinear sample with precision `k`. -/
def sample (k : Int) (image : Ptr) (stride x y u v : Int) : Int :=
  let s := offset image (y * stride + x)
  Int.tdiv ((rd s 0 * (k - u) + rd s 1 * u) * (k - v)
    + (rd s stride * (k - u) + rd s (stride + 1) * u) * v) (k * k)

/-- The three definitions of `lround` the source can be built with. -/
inductive LRound
  /-- `#ifdef __SSE__`: `_mm_cvtss_si32`, round to nearest, ties to even. -/
  | sse
  /-- `#elif defined(_MSC_VER)`: `return x+0.5` converted to `int`. -/
  | msvc
  /-- Otherwise the `lround` of `math.h`: round to nearest, ties away from zero. -/
  | libm
deriving DecidableEq

/-- Rounding to the nearest integer, ties to the even one. -/
def roundEven (q : ℚ) : Int :=
  let f := Rat.floor q
  let r := q - f
  if r < 1 / 2 then f else if 1 / 2 < r then f + 1 else if f % 2 = 0 then f else f + 1

/-- Rounding to the nearest integer, ties away from zero. -/
def roundAway (q : ℚ) : Int :=
  if 0 ≤ q then Rat.floor (q + 1 / 2) else -Rat.floor (-q + 1 / 2)

/-- The result of an x86 float-to-`int` conversion instruction: the value
when it fits 32 bits, and the "integer indefinite" `INT_MIN` otherwise. -/
def toInt32Sat (z : Int) : Int :=
  if -2147483648 ≤ z ∧ z ≤ 2147483647 then z else -2147483648

/-- The conversion of a `long` to `int`: reduction modulo `2^32` into
`[-2^31, 2^31)`. -/
def toInt32Wrap (z : Int) : Int := (z + 2147483648) % 4294967296 - 2147483648

/-- The source's `lround`, for each of its three builds, with its 32-bit
`int` result: `_mm_cvtss_si32` and the conversion of `x+0.5` give `INT_MIN`
out of range, and the `long` of `math.h` is cut to `int` by the assignment
`int fx = lround(...)`. -/
def lround (b : LRound) (x : ℚ) : Int :=
  match b with
  | .sse => toInt32Sat (roundEven x)
  | .msvc => toInt32Sat (truncToInt (x + 1 / 2))
  | .libm => toInt32Wrap (roundAway x)

/-! ## `SamplePattern` -/

/-- The source's `SamplePattern`; the result is the `pattern` buffer after
the call. -/
def SamplePattern (b : LRound) (image : Ptr) (stride : Int) (warp : mat32)
    (pattern : Ptr) : Ptr :=
  let k : Int := 256
  forLoop 0 16 (fun i pattern => forLoop 0 16 (fun j pattern =>
    let p := warp.mulVec ⟨((j - 8 : Int) : ℚ), ((i - 8 : Int) : ℚ)⟩
    let fx := lround b (p.x * k)
    let fy := lround b (p.y * k)
    let ix := Int.tdiv fx k
    let iy := Int.tdiv fy k
    let u := Int.tmod fx k
    let v := Int.tmod fy k
    store pattern (i * 16 + j) (toUbyte (sample k image stride ix iy u v))) pattern) pattern

/-! ## `SAD` -/

/-- The `#else` (scalar) definition of `SAD`. -/
def SAD_scalar (pattern image : Ptr) (stride : Int) : Nat :=
  forLoop 0 16 (fun i sad => forLoop 0 16 (fun j sad =>
    uadd sad (Int.natAbs (rd pattern (i * 16 + j) - rd image (i * stride + j)))) sad) 0

/-- An `__m128i` seen as eight unsigned 16-bit lanes. -/
abbrev m128i := Fin 8 → Nat

/-- The intrinsic `_mm_setzero_si128`. -/
def mm_setzero_si128 : m128i := fun _ => 0

/-- The intrinsic `_mm_loadu_si128`: the sixteen bytes at `p`. -/
def mm_loadu_si128 (p : Ptr) : Fin 16 → ubyte := fun t => p (t.val : Int)

/-- Sum of the absolute differences of the eight bytes from `base` on. -/
def absDiffSum8 (a b : Fin 16 → ubyte) (base : Nat) : Nat :=
  ((List.range 8).map (fun t =>
    Int.natAbs (((a (Fin.ofNat (base + t))).val : Int) - ((b (Fin.ofNat (base + t))).val : Int)))).sum

/-- The intrinsic `_mm_sad_epu8`: the sum of absolute differences of the low
eight bytes goes to lane 0, that of the high eight bytes to lane 4, the
other lanes are zero. -/
def mm_sad_epu8 (a b : Fin 16 → ubyte) : m128i := fun l =>
  if l = 0 then absDiffSum8 a b 0 else if l = 4 then absDiffSum8 a b 8 else 0

/-- The intrinsic `_mm_adds_epu16`: lane-wise saturating unsigned addition. -/
def mm_adds_epu16 (a b : m128i) : m128i := fun l => min (a l + b l) 65535

/-- The intrinsic `_mm_extract_epi16`: lane `imm`, zero-extended to `int`. -/
def mm_extract_epi16 (a : m128i) (imm : Fin 8) : Int := (a imm : Int)

/-- The `#ifdef __SSE2__` definition of `SAD`. -/
def SAD_sse2 (pattern image : Ptr) (stride : Int) : Nat :=
  let a := forLoop 0 16 (fun i a =>
    mm_adds_epu16 a (mm_sad_epu8 (mm_loadu_si128 (offset pattern (i * 16)))
      (mm_loadu_si128 (offset image (i * stride))))) mm_setzero_si128
  toUint (mm_extract_epi16 a 0 + mm_extract_epi16 a 4)

/-- The source's `SAD`, for each of its two builds (`sse2 = true` when
`__SSE2__` is defined). -/
def SAD (sse2 : Bool) (pattern image : Ptr) (stride : Int) : Nat :=
  if sse2 then SAD_sse2 pattern image stride else SAD_scalar pattern image stride

/-! ## `Track` -/

/-- The value of the floating expression `n / sqrt(r)` for two `uint`
operands, with the division and the square root exact: `0/0` is NaN,
`n/0` with `n > 0` is plus infinity, otherwise the real `n / √r`. -/
inductive Confidence
  | nan
  | inf
  | quot (n r : Nat)
deriving DecidableEq

/-- The floating quotient `n / sqrt(r)` of two `uint` values. -/
def fdivSqrt (n r : Nat) : Confidence :=
  if r = 0 then (if n = 0 then .nan else .inf) else .quot n r

/-- The running minimum of Phase 1 and where it was found (`min`, `ix`, `iy`). -/
structure Best where
  min : Nat
  ix : Int
  iy : Int
deriving DecidableEq

/-- Phase 1 of `Track` (the loop commented `integer pixel`), from the state
`s` the caller initialised. -/
def integerSearch (sse2 : Bool) (pattern image : Ptr) (stride w h : Int) (s : Best) : Best :=
  forLoop 0 (h - 16) (fun y s => forLoop 0 (w - 16) (fun x s =>
    let d := SAD sse2 pattern (offset image (y * stride + x)) stride
    if d < s.min then ⟨d, x, y⟩ else s) s) s

/-- The subpixel precision in bits, `kPrecision`. -/
def kPrecision : Int := 4

/-- The constant `kScale = 1<<kPrecision`. -/
def kScale : Int := 16

/-- The inner accumulation of Phase 2: the sum of absolute differences of the
pattern and the image sampled bilinearly at `(sx, sy)` plus `(u, v)/kScale`. -/
def sampledSAD (pattern image : Ptr) (stride sx sy u v : Int) : Nat :=
  forLoop 0 16 (fun i sad => forLoop 0 16 (fun j sad =>
    uadd sad (Int.natAbs (rd pattern (i * 16 + j)
      - sample kScale image stride (sx + j) (sy + i) u v))) sad) 0

/-- The state of Phase 2: the running minimum and the fractional position. -/
structure Frac where
  min : Nat
  fx : Int
  fy : Int
deriving DecidableEq

/-- One candidate `(x, y)` of the 3x3 neighbourhood in iteration `k` of Phase 2;
`r` holds `min`, `nx`, `ny`.  The shift `<<p` is the multiplication by `2^p`. -/
def candidate (pattern image : Ptr) (stride ix iy fx fy k x y : Int) (r : Frac) : Frac :=
  let p := kPrecision - k
  let u0 := (fx + x) * 2 ^ p.toNat
  let v0 := (fy + y) * 2 ^ p.toNat
  let u := if u0 < 0 then u0 + kScale else u0
  let sx := if u0 < 0 then ix - 1 else ix
  let v := if v0 < 0 then v0 + kScale else v0
  let sy := if v0 < 0 then iy - 1 else iy
  let sad := sampledSAD pattern image stride sx sy u v
  if sad < r.min then ⟨sad, fx + x, fy + y⟩ else r

/-- Iteration `k` of Phase 2 of `Track`. -/
def refineStep (pattern image : Ptr) (stride ix iy : Int) (k : Int) (s : Frac) : Frac :=
  let fx := s.fx * 2
  let fy := s.fy * 2
  forLoop (-1) 2 (fun y r => forLoop (-1) 2 (fun x r =>
    candidate pattern image stride ix iy fx fy k x y r) r) ⟨s.min, fx, fy⟩

/-- Phase 2 of `Track`: the four refinement iterations, from `fx = fy = 0`. -/
def refine (pattern image : Ptr) (stride ix iy : Int) (min : Nat) : Frac :=
  forLoop 1 (kPrecision + 1) (refineStep pattern image stride ix iy) ⟨min, 0, 0⟩

/-- The five sums of the correlation stage. -/
structure Sums where
  sX : Nat
  sY : Nat
  sXX : Nat
  sYY : Nat
  sXY : Nat
deriving DecidableEq

/-- The accumulation loop of the correlation stage, over the pattern values
`X i j` and the window values `Y i j` (both `int`). -/
def accumulate (X Y : Int → Int → Int) : Sums :=
  forLoop 0 16 (fun i s => forLoop 0 16 (fun j s =>
    let x := X i j
    let y := Y i j
    { sX := toUint (s.sX + x)
      sY := toUint (s.sY + y)
      sXX := toUint (s.sXX + x * x)
      sYY := toUint (s.sYY + y * y)
      sXY := toUint (s.sXY + x * y) }) s) ⟨0, 0, 0, 0, 0⟩

/-- The statement `sX /= N, sY /= N, sXX /= N, sYY /= N, sXY /= N` with `N = 256`. -/
def Sums.divN (s : Sums) : Sums :=
  ⟨s.sX / 256, s.sY / 256, s.sXX / 256, s.sYY / 256, s.sXY / 256⟩

/-- The `uint` expression `sXY-sX*sY`. -/
def Sums.cov (s : Sums) : Nat := usub s.sXY (umul s.sX s.sY)

/-- The `uint` expression `sXX-sX*sX`. -/
def Sums.varX (s : Sums) : Nat := usub s.sXX (umul s.sX s.sX)

/-- The `uint` expression `sYY-sY*sY`. -/
def Sums.varY (s : Sums) : Nat := usub s.sYY (umul s.sY s.sY)

/-- The correlation stage of `Track` on the pattern values `X` and the
window values `Y`: the sums, their division by `N`, and the returned
quotient `(sXY-sX*sY)/sqrt((sXX-sX*sX)*(sYY-sY*sY))`. -/
def correlation (X Y : Int → Int → Int) : Confidence :=
  let s := (accumulate X Y).divN
  fdivSqrt s.cov (umul s.varX s.varY)

/-- The final position of `Track`: integer pixel and fraction in 1/16. -/
structure Position where
  ix : Int
  iy : Int
  fx : Int
  fy : Int
deriving DecidableEq

/-- The position `Track` reaches: Phase 1 from the truncated input
translation, Phase 2, and the two statements that borrow one pixel for a
negative fraction. -/
def finalPosition (sse2 : Bool) (pattern image : Ptr) (stride w h : Int) (m : mat32) : Position :=
  let ix := truncToInt (m.m02 - 8)
  let iy := truncToInt (m.m12 - 8)
  let s := integerSearch sse2 pattern image stride w h ⟨toUint (-1), ix, iy⟩
  let r := refine pattern image stride s.ix s.iy s.min
  let fx := if r.fx < 0 then r.fx + kScale else r.fx
  let ix := if r.fx < 0 then s.ix - 1 else s.ix
  let fy := if r.fy < 0 then r.fy + kScale else r.fy
  let iy := if r.fy < 0 then s.iy - 1 else s.iy
  ⟨ix, iy, fx, fy⟩

/-- The pattern values read by the correlation stage. -/
def patternValues (pattern : Ptr) : Int → Int → Int := fun i j => rd pattern (i * 16 + j)

/-- The window values read by the correlation stage: the image sampled at
the final position. -/
def windowValues (image : Ptr) (stride : Int) (q : Position) : Int → Int → Int :=
  fun i j => sample kScale image stride (q.ix + j) (q.iy + i) q.fx q.fy

/-- The source's `Track`: the affine position written back through `warp`
and the returned confidence. -/
def Track (sse2 : Bool) (pattern image : Ptr) (stride w h : Int) (warp : mat32) :
    mat32 × Confidence :=
  let m := warp
  let q := finalPosition sse2 pattern image stride w h m
  let m := { m with
    m02 := ((q.ix * kScale + q.fx : Int) : ℚ) / kScale + 8
    m12 := ((q.iy * kScale + q.fy : Int) : ℚ) / kScale + 8 }
  (m, correlation (patternValues pattern) (windowValues image stride q))


/-! ## Specification-side definitions -/

/-- The distance of the specification: the sum over the 16x16 positions of
`|template[i*16+j] - image[i*stride+j]|`. -/
def sumAbsDiff (pattern image : Ptr) (stride : Int) : Nat :=
  ∑ i in Finset.range 16, ∑ j in Finset.range 16,
    Int.natAbs (rd pattern ((i : Int) * 16 + (j : Int)) - rd image ((i : Int) * stride + (j : Int)))

/-- The sum of `T i j` over the 16x16 positions. -/
def sum2 (T : Int → Int → Int) : Int :=
  ∑ i in Finset.range 16, ∑ j in Finset.range 16, T (i : Int) (j : Int)

/-- The real number a confidence denotes: `c.HasValue v` says that `c` is a
number (neither NaN nor infinite) and that its value is `v`. -/
def Confidence.HasValue (c : Confidence) (v : ℝ) : Prop :=
  match c with
  | .quot n r => v = (n : ℝ) / Real.sqrt (r : ℝ)
  | _ => False

/-- The grid `T` takes byte values on the 16x16 positions. -/
def IsByteGrid (T : Int → Int → Int) : Prop :=
  ∀ i j : Nat, i < 16 → j < 16 → 0 ≤ T i j ∧ T i j ≤ 255

/-- The variance term `sXX-sX*sX` that the correlation stage computes for
the pattern, a function of the pattern alone. -/
def templateVar (pattern : Ptr) : Nat :=
  (accumulate (patternValues pattern) (patternValues pattern)).divN.varX

/-- Row-major scan order: offset `(x, y)` is visited strictly before `(X, Y)`. -/
def before (y x Y X : Nat) : Prop := y < Y ∨ (y = Y ∧ x < X)

/-- The loop invariant of Phase 1 when the scan of rows of width `W` stands
at `(X, Y)`, for the distance `d` and the initial state `s0`: the running
minimum bounds every visited distance from below, and either nothing was
visited and the state is the initial one, or the state holds the first
visited offset that attains the minimum. -/
def SearchInv (d : Int → Int → Nat) (W : Nat) (s0 : Best) (Y X : Nat) (s : Best) : Prop :=
  (∀ x y : Nat, x < W → before y x Y X → s.min ≤ d x y)
  ∧ ((s = s0 ∧ ∀ x y : Nat, x < W → ¬ before y x Y X)
    ∨ ∃ bx by' : Nat, s.ix = bx ∧ s.iy = by' ∧ bx < W ∧ before by' bx Y X
        ∧ s.min = d bx by'
        ∧ ∀ x y : Nat, x < W → before y x Y X → d x y = s.min → ¬ before y x by' bx)

/-! ## Concrete inputs -/

/-- A template whose rows 0..7 are 0 and whose rows 8..15 are 16. -/
def stepPattern : Ptr := fun t =>
  match t with
  | Int.ofNat n => if n < 128 then 0 else 16
  | Int.negSucc _ => 0

/-- An image of stride 17 whose rows 0..7 are 0 and whose later rows are 16:
its window at offset `(0, 0)` is `stepPattern`. -/
def stepImage : Ptr := fun t =>
  match t with
  | Int.ofNat n => if n < 136 then 0 else 16
  | Int.negSucc _ => 0

/-- An image of stride 17 whose column 0 is 255 and whose columns 1..16 hold
`stepPattern`: the template is duplicated at offset `(1, 0)`. -/
def shiftedImage : Ptr := fun t =>
  match t with
  | Int.ofNat n => if n % 17 = 0 then 255 else if n < 136 then 0 else 16
  | Int.negSucc _ => 255

/-- A template that is 134 everywhere but 253 at row 5, column 2. -/
def spotPattern : Ptr := fun t =>
  match t with
  | Int.ofNat n => if n = 82 then 253 else 134
  | Int.negSucc _ => 134

/-- An image of stride 17 that is 134 everywhere but 241 at row 5, column 2. -/
def spotImage : Ptr := fun t =>
  match t with
  | Int.ofNat n => if n = 87 then 241 else 134
  | Int.negSucc _ => 134

/-- A template whose rows 0..7 are 239 and whose rows 8..15 are 255. -/
def negPattern : Ptr := fun t =>
  match t with
  | Int.ofNat n => if n < 128 then 239 else 255
  | Int.negSucc _ => 255

/-- An image of stride 17 holding the photometric negative of `negPattern`
in its window at offset `(0, 0)` (16 in rows 0..7, 0 in rows 8..15) and 0
everywhere else. -/
def negImage : Ptr := fun t =>
  match t with
  | Int.ofNat n => if n < 136 && n % 17 < 16 then 16 else 0
  | Int.negSucc _ => 0

/-- A buffer of constant bytes `c`. -/
def flat (c : ubyte) : Ptr := fun _ => c

/-- A template that is 255 at its first position and 0 elsewhere. -/
def dotPattern : Ptr := fun t =>
  match t with
  | Int.ofNat n => if n = 0 then 255 else 0
  | Int.negSucc _ => 0

/-- The affine position with identity linear part and translation `(tx, ty)`. -/
def translation (tx ty : ℚ) : mat32 := ⟨1, 0, tx, 0, 1, ty⟩

/-- An image that is 255 at every non-negative index and 0 in front of the
buffer. -/
def halfImage : Ptr := fun t =>
  match t with
  | Int.ofNat _ => 255
  | Int.negSucc _ => 0

/-! ## The coordinates Phase 2 passes to the sampler -/

/-- The fractional coordinate after the statement `if( u < 0 ) u+=kScale, sx--;`. -/
def carryFrac (u : Int) : Int := if u < 0 then u + kScale else u

/-- The integer coordinate after the statement `if( u < 0 ) u+=kScale, sx--;`. -/
def carryInt (u s : Int) : Int := if u < 0 then s - 1 else s

/-- The state of Phase 2 when `n` of its iterations are completed. -/
def refineState (pattern image : Ptr) (stride ix iy : Int) (min : Nat) (n : Nat) : Frac :=
  iter 1 n (refineStep pattern image stride ix iy) ⟨min, 0, 0⟩

/-- The value `(fx+x)<<p` of iteration `k`, for the fraction `f` held on entry
(the iteration doubles it first) and the offset `x`. -/
def shifted (f x k : Int) : Int := (f * 2 + x) * 2 ^ (kPrecision - k).toNat

/-- The distance that iteration `k`, entered with the fractions `(fx, fy)`,
accumulates for its candidate `(x, y)`. -/
def candidateSAD (pattern image : Ptr) (stride ix iy fx fy k x y : Int) : Nat :=
  sampledSAD pattern image stride (carryInt (shifted fx x k) ix) (carryInt (shifted fy y k) iy)
    (carryFrac (shifted fx x k)) (carryFrac (shifted fy y k))

/-- The five sums that the correlation stage of `Track` accumulates, before
their division by `N`. -/
def trackSums (sse2 : Bool) (pattern image : Ptr) (stride w h : Int) (warp : mat32) : Sums :=
  accumulate (patternValues pattern)
    (windowValues image stride (finalPosition sse2 pattern image stride w h warp))

/-! ## Loops -/

open Finset

theorem iter_succ {σ : Type} (lo : Int) (n : Nat) (body : Int → σ → σ) (s : σ) :
    iter lo (n + 1) body s = body (lo + n) (iter lo n body s) := rfl

theorem forLoop_zero_sixteen {σ : Type} (body : Int → σ → σ) (s : σ) :
    forLoop 0 16 body s = iter 0 16 body s := rfl

/-- Invariant rule for `iter`. -/
theorem iter_invariant {σ : Type} (P : Nat → σ → Prop) (lo : Int) (body : Int → σ → σ)
    (n : Nat) (s : σ) (h0 : P 0 s)
    (hstep : ∀ t s, t < n → P t s → P (t + 1) (body (lo + t) s)) :
    P n (iter lo n body s) := by
  induction n with
  | zero => exact h0
  | succ n ih =>
    rw [iter_succ]
    exact hstep n _ (Nat.lt_succ_self n)
      (ih (fun t s ht hP => hstep t s (Nat.lt_succ_of_lt ht) hP))

theorem iter_sum_mod (lo : Int) (F : Int → Nat) (body : Int → Nat → Nat)
    (hb : ∀ i s, body i s % UINT = (s + F i) % UINT) (n s : Nat) :
    iter lo n body s % UINT = (s + ∑ t in range n, F (lo + t)) % UINT := by
  induction n with
  | zero => simp [iter]
  | succ n ih =>
    rw [iter_succ, hb, Nat.add_mod, ih, Finset.sum_range_succ, ← Nat.add_mod, Nat.add_assoc]

theorem uadd_mod (s x : Nat) : uadd s x % UINT = (s + x) % UINT := by
  simp [uadd]

theorem uadd_lt (s x : Nat) : uadd s x < UINT := Nat.mod_lt _ (by decide)


/-! ## `SAD`: the two builds agree with the specification -/

theorem rd_le (p : Ptr) (i : Int) : rd p i ≤ 255 := by
  have := (p i).isLt
  unfold rd; omega

theorem rd_nonneg (p : Ptr) (i : Int) : 0 ≤ rd p i := by
  unfold rd; omega

theorem natAbs_rd_sub_le (p q : Ptr) (i j : Int) : Int.natAbs (rd p i - rd q j) ≤ 255 := by
  have h1 := rd_le p i
  have h2 := rd_nonneg p i
  have h3 := rd_le q j
  have h4 := rd_nonneg q j
  omega

theorem sumAbsDiff_le (pattern image : Ptr) (stride : Int) :
    sumAbsDiff pattern image stride ≤ 65280 := by
  unfold sumAbsDiff
  calc _ ≤ ∑ _i in range 16, ∑ _j in range 16, 255 :=
        Finset.sum_le_sum (fun i _ => Finset.sum_le_sum (fun j _ => natAbs_rd_sub_le _ _ _ _))
    _ = 65280 := by simp

theorem SAD_scalar_eq (pattern image : Ptr) (stride : Int) :
    SAD_scalar pattern image stride = sumAbsDiff pattern image stride := by
  have hin : ∀ (i : Int) (s : Nat),
      forLoop 0 16 (fun j sad =>
        uadd sad (Int.natAbs (rd pattern (i * 16 + j) - rd image (i * stride + j)))) s % UINT
      = (s + ∑ j in range 16,
          Int.natAbs (rd pattern (i * 16 + (j : Int)) - rd image (i * stride + (j : Int)))) % UINT := by
    intro i s
    rw [forLoop_zero_sixteen, iter_sum_mod 0
      (fun j => Int.natAbs (rd pattern (i * 16 + j) - rd image (i * stride + j))) _
      (fun j s => uadd_mod _ _)]
    simp
  have hout := iter_sum_mod 0 _ _ hin 16 0
  have hlt : SAD_scalar pattern image stride < UINT := by
    unfold SAD_scalar
    rw [forLoop_zero_sixteen, iter_succ, forLoop_zero_sixteen, iter_succ]
    exact uadd_lt _ _
  have hle := sumAbsDiff_le pattern image stride
  unfold SAD_scalar
  unfold SAD_scalar at hlt
  rw [forLoop_zero_sixteen] at hlt ⊢
  rw [Nat.mod_eq_of_lt hlt] at hout
  rw [hout]
  simp only [zero_add]
  unfold sumAbsDiff at hle ⊢
  exact Nat.mod_eq_of_lt (by unfold UINT; omega)

theorem absDiffSum8_load (p q : Ptr) (a b : Int) (base : Nat) (hb : base ≤ 8) :
    absDiffSum8 (mm_loadu_si128 (offset p a)) (mm_loadu_si128 (offset q b)) base
      = ∑ t in range 8, Int.natAbs (rd p (a + ((base + t : Nat) : Int)) - rd q (b + ((base + t : Nat) : Int))) := by
  interval_cases base <;>
  simp [absDiffSum8, mm_loadu_si128, offset, rd, Finset.sum_range_succ, List.range, List.range.loop,
    Fin.ofNat] <;> omega

theorem sum8_le (f : Nat → Nat) (hf : ∀ t, f t ≤ 255) : ∑ t in range 8, f t ≤ 2040 := by
  calc _ ≤ ∑ _t in range 8, 255 := Finset.sum_le_sum (fun t _ => hf t)
    _ = 2040 := by simp

theorem sum_rows_le (g : Nat → Nat) (hg : ∀ i, g i ≤ 2040) (n : Nat) :
    ∑ i in range n, g i ≤ 2040 * n := by
  calc _ ≤ ∑ _i in range n, 2040 := Finset.sum_le_sum (fun i _ => hg i)
    _ = 2040 * n := by simp [Nat.mul_comm]

/-- Half-row sum of absolute differences: the eight bytes from column `base` of row `i`. -/
theorem halfRow_le (pattern image : Ptr) (stride : Int) (base i : Nat) :
    ∑ t in range 8, Int.natAbs (rd pattern ((i : Int) * 16 + ((base + t : Nat) : Int))
      - rd image ((i : Int) * stride + ((base + t : Nat) : Int))) ≤ 2040 :=
  sum8_le _ (fun _ => natAbs_rd_sub_le _ _ _ _)

theorem SAD_sse2_eq (pattern image : Ptr) (stride : Int) :
    SAD_sse2 pattern image stride = sumAbsDiff pattern image stride := by
  have key := iter_invariant
    (fun n (a : m128i) =>
      a 0 = ∑ i in range n, ∑ t in range 8,
        Int.natAbs (rd pattern ((i : Int) * 16 + ((0 + t : Nat) : Int))
          - rd image ((i : Int) * stride + ((0 + t : Nat) : Int)))
      ∧ a 4 = ∑ i in range n, ∑ t in range 8,
        Int.natAbs (rd pattern ((i : Int) * 16 + ((8 + t : Nat) : Int))
          - rd image ((i : Int) * stride + ((8 + t : Nat) : Int))))
    0 (fun i a =>
      mm_adds_epu16 a (mm_sad_epu8 (mm_loadu_si128 (offset pattern (i * 16)))
        (mm_loadu_si128 (offset image (i * stride))))) 16 mm_setzero_si128
    (by simp [mm_setzero_si128])
    (by
      intro n a hn ⟨h0, h4⟩
      have b0 := sum_rows_le _ (halfRow_le pattern image stride 0) n
      have b4 := sum_rows_le _ (halfRow_le pattern image stride 8) n
      have c0 := halfRow_le pattern image stride 0 n
      have c4 := halfRow_le pattern image stride 8 n
      constructor
      · rw [Finset.sum_range_succ, ← h0]
        rw [← h0] at b0
        simp only [mm_adds_epu16, mm_sad_epu8, zero_add, if_true]
        rw [absDiffSum8_load _ _ _ _ 0 (by omega)]
        simp only [zero_add] at c0 ⊢
        omega
      · rw [Finset.sum_range_succ, ← h4]
        rw [← h4] at b4
        have h40 : ¬ ((4 : Fin 8) = 0) := by decide
        simp only [mm_adds_epu16, mm_sad_epu8, zero_add, if_true, h40, if_false]
        rw [absDiffSum8_load _ _ _ _ 8 (by omega)]
        omega)
  obtain ⟨h0, h4⟩ := key
  have hle := sumAbsDiff_le pattern image stride
  have hsplit : sumAbsDiff pattern image stride
      = (∑ i in range 16, ∑ t in range 8,
        Int.natAbs (rd pattern ((i : Int) * 16 + ((0 + t : Nat) : Int))
          - rd image ((i : Int) * stride + ((0 + t : Nat) : Int))))
      + ∑ i in range 16, ∑ t in range 8,
        Int.natAbs (rd pattern ((i : Int) * 16 + ((8 + t : Nat) : Int))
          - rd image ((i : Int) * stride + ((8 + t : Nat) : Int))) := by
    unfold sumAbsDiff
    rw [← Finset.sum_add_distrib]
    refine Finset.sum_congr rfl (fun i _ => ?_)
    have : (16 : Nat) = 8 + 8 := rfl
    rw [this, Finset.sum_range_add]
    simp
  unfold SAD_sse2
  rw [forLoop_zero_sixteen]
  simp only [mm_extract_epi16, h0, h4]
  rw [hsplit] at hle ⊢
  unfold toUint
  omega

theorem SAD_eq (sse2 : Bool) (pattern image : Ptr) (stride : Int) :
    SAD sse2 pattern image stride = sumAbsDiff pattern image stride := by
  cases sse2
  · simp [SAD, SAD_scalar_eq]
  · simp [SAD, SAD_sse2_eq]

theorem SAD_le (sse2 : Bool) (pattern image : Ptr) (stride : Int) :
    SAD sse2 pattern image stride ≤ 65280 := by
  rw [SAD_eq]; exact sumAbsDiff_le _ _ _

/-- C6: for every template and every image window, of any stride, the scalar
`SAD` and the SSE2 `SAD` return the same unsigned integer, and that integer
is the sum over all 16x16 positions of `|template[i*16+j] - image[i*stride+j]|`. -/
theorem SAD_scalar_sse2_agree (pattern image : Ptr) (stride : Int) :
    SAD_scalar pattern image stride = SAD_sse2 pattern image stride
    ∧ SAD_scalar pattern image stride = sumAbsDiff pattern image stride
    ∧ SAD_sse2 pattern image stride = sumAbsDiff pattern image stride
    ∧ SAD false pattern image stride = SAD true pattern image stride := by
  refine ⟨?_, SAD_scalar_eq _ _ _, SAD_sse2_eq _ _ _, ?_⟩
  · rw [SAD_scalar_eq, SAD_sse2_eq]
  · rw [SAD_eq, SAD_eq]

/-! ## `SamplePattern` -/

theorem storeRow_apply (val : Int → ubyte) (base : Int) (n : Nat) (p : Ptr) (t : Int) :
    iter 0 n (fun j p => store p (base + j) (val j)) p t
      = if base ≤ t ∧ t < base + n then val (t - base) else p t := by
  induction n with
  | zero =>
    have : ¬ (base ≤ t ∧ t < base + ((0 : Nat) : Int)) := by omega
    rw [if_neg this]; rfl
  | succ n ih =>
    rw [iter_succ]
    simp only [store, zero_add]
    by_cases h : t = base + n
    · subst h
      have : (base ≤ base + (n : Int) ∧ base + (n : Int) < base + ((n + 1 : Nat) : Int)) := by omega
      simp [this]
    · rw [if_neg h, ih]
      by_cases h2 : base ≤ t ∧ t < base + n
      · have : base ≤ t ∧ t < base + ((n + 1 : Nat) : Int) := by omega
        rw [if_pos h2, if_pos this]
      · have : ¬ (base ≤ t ∧ t < base + ((n + 1 : Nat) : Int)) := by omega
        rw [if_neg h2, if_neg this]

theorem storeLoop_apply (val : Int → Int → ubyte) (m : Nat) (p : Ptr) (t : Int) :
    iter 0 m (fun i p => forLoop 0 16 (fun j p => store p (i * 16 + j) (val i j)) p) p t
      = if 0 ≤ t ∧ t < (m : Int) * 16 then val (t / 16) (t % 16) else p t := by
  induction m with
  | zero =>
    have : ¬ (0 ≤ t ∧ t < ((0 : Nat) : Int) * 16) := by omega
    rw [if_neg this]; rfl
  | succ m ih =>
    rw [iter_succ, forLoop_zero_sixteen, storeRow_apply (val (0 + (m : Int))) ((0 + (m : Int)) * 16)]
    simp only [zero_add]
    by_cases h : (m : Int) * 16 ≤ t ∧ t < (m : Int) * 16 + ((16 : Nat) : Int)
    · have h2 : 0 ≤ t ∧ t < ((m + 1 : Nat) : Int) * 16 := by omega
      have h3 : t / 16 = m := by omega
      have h4 : t % 16 = t - m * 16 := by omega
      rw [if_pos h, if_pos h2, h3, h4]
    · rw [if_neg h, ih]
      by_cases h2 : 0 ≤ t ∧ t < (m : Int) * 16
      · have : 0 ≤ t ∧ t < ((m + 1 : Nat) : Int) * 16 := by omega
        rw [if_pos h2, if_pos this]
      · have : ¬ (0 ≤ t ∧ t < ((m + 1 : Nat) : Int) * 16) := by omega
        rw [if_neg h2, if_neg this]

theorem toUbyte_rd (p : Ptr) (i : Int) : toUbyte (rd p i) = p i := by
  apply Fin.ext
  have := (p i).isLt
  simp only [toUbyte, rd, Fin.ofNat]
  omega

theorem sample_zero_zero (image : Ptr) (stride x y : Int) :
    sample 256 image stride x y 0 0 = rd image (y * stride + x) := by
  have h : rd (offset image (y * stride + x)) 0 = rd image (y * stride + x) := by
    simp [rd, offset]
  simp only [sample]
  rw [h]
  generalize rd image (y * stride + x) = a
  simp only [mul_zero, add_zero, sub_zero]
  have : a * 256 * 256 = a * (256 * 256) := by ring
  rw [this]
  exact Int.mul_tdiv_cancel _ (by norm_num)

theorem ratFloor_eq (q : ℚ) : Rat.floor q = ⌊q⌋ := rfl

theorem truncToInt_of_nonneg (q : ℚ) (hq : 0 ≤ q) : truncToInt q = ⌊q⌋ := by
  rw [Rat.floor_def]
  unfold truncToInt
  exact Int.tdiv_eq_ediv (Rat.num_nonneg.mpr hq) (Int.ofNat_nonneg _)

theorem truncToInt_intCast_add_half (z : Int) (hz : 0 ≤ z) :
    truncToInt ((z : ℚ) + 1 / 2) = z := by
  have h0 : (0 : ℚ) ≤ (z : ℚ) + 1 / 2 := by
    have : (0 : ℚ) ≤ (z : ℚ) := by exact_mod_cast hz
    linarith
  rw [truncToInt_of_nonneg _ h0, Int.floor_int_add]
  norm_num

theorem roundEven_intCast (z : Int) : roundEven (z : ℚ) = z := by
  simp [roundEven, ratFloor_eq]

theorem roundAway_intCast (z : Int) : roundAway (z : ℚ) = z := by
  unfold roundAway
  simp only [ratFloor_eq]
  split
  · rw [Int.floor_int_add]; norm_num
  · have : -(z : ℚ) = ((-z : Int) : ℚ) := by push_cast; ring
    rw [this, Int.floor_int_add]; norm_num

theorem toInt32Sat_of_range (z : Int) (hz : 0 ≤ z ∧ z ≤ 2147483647) : toInt32Sat z = z := by
  unfold toInt32Sat
  rw [if_pos (by omega)]

theorem toInt32Wrap_of_range (z : Int) (hz : 0 ≤ z ∧ z ≤ 2147483647) : toInt32Wrap z = z := by
  unfold toInt32Wrap
  omega

/-- On a non-negative integer that fits an `int` every build of `lround`
returns that integer. -/
theorem lround_intCast (b : LRound) (z : Int) (hz : 0 ≤ z ∧ z ≤ 2147483647) :
    lround b (z : ℚ) = z := by
  cases b
  · show toInt32Sat (roundEven (z : ℚ)) = z
    rw [roundEven_intCast, toInt32Sat_of_range z hz]
  · show toInt32Sat (truncToInt ((z : ℚ) + 1 / 2)) = z
    rw [truncToInt_intCast_add_half z hz.1, toInt32Sat_of_range z hz]
  · show toInt32Wrap (roundAway (z : ℚ)) = z
    rw [roundAway_intCast, toInt32Wrap_of_range z hz]

theorem SamplePattern_identity (b : LRound) (image : Ptr) (stride tx ty : Int)
    (htx : 8 ≤ tx ∧ tx + 7 < 8388608) (hty : 8 ≤ ty ∧ ty + 7 < 8388608) (pattern : Ptr)
    (i j : Fin 16) :
    SamplePattern b image stride ⟨1, 0, tx, 0, 1, ty⟩ pattern ((i.val : Int) * 16 + (j.val : Int))
      = image ((ty - 8 + (i.val : Int)) * stride + (tx - 8 + (j.val : Int))) := by
  have hi := i.isLt
  have hj := j.isLt
  unfold SamplePattern
  simp only [mat32.mulVec]
  rw [forLoop_zero_sixteen]
  refine (storeLoop_apply _ 16 pattern _).trans ?_
  have hr : 0 ≤ (i.val : Int) * 16 + (j.val : Int)
      ∧ (i.val : Int) * 16 + (j.val : Int) < ((16 : Nat) : Int) * 16 := by omega
  have hd : ((i.val : Int) * 16 + (j.val : Int)) / 16 = i.val := by omega
  have hm : ((i.val : Int) * 16 + (j.val : Int)) % 16 = j.val := by omega
  rw [if_pos hr, hd, hm]
  have hx : (((j.val : Int) - 8 : Int) : ℚ) * 1 + (((i.val : Int) - 8 : Int) : ℚ) * 0 + (tx : ℚ)
      = (((tx - 8 + (j.val : Int)) : Int) : ℚ) := by push_cast; ring
  have hy : (((j.val : Int) - 8 : Int) : ℚ) * 0 + (((i.val : Int) - 8 : Int) : ℚ) * 1 + (ty : ℚ)
      = (((ty - 8 + (i.val : Int)) : Int) : ℚ) := by push_cast; ring
  have hx2 : (((tx - 8 + (j.val : Int)) : Int) : ℚ) * ((256 : Int) : ℚ)
      = ((((tx - 8 + (j.val : Int)) * 256 : Int)) : ℚ) := by push_cast; ring
  have hy2 : (((ty - 8 + (i.val : Int)) : Int) : ℚ) * ((256 : Int) : ℚ)
      = ((((ty - 8 + (i.val : Int)) * 256 : Int)) : ℚ) := by push_cast; ring
  rw [hx, hy, hx2, hy2, lround_intCast b _ (by omega), lround_intCast b _ (by omega)]
  have e1 : ((tx - 8 + (j.val : Int)) * 256).tdiv 256 = tx - 8 + (j.val : Int) :=
    Int.mul_tdiv_cancel _ (by norm_num)
  have e2 : ((ty - 8 + (i.val : Int)) * 256).tdiv 256 = ty - 8 + (i.val : Int) :=
    Int.mul_tdiv_cancel _ (by norm_num)
  have e3 : ((tx - 8 + (j.val : Int)) * 256).tmod 256 = 0 := Int.mul_tmod_left _ _
  have e4 : ((ty - 8 + (i.val : Int)) * 256).tmod 256 = 0 := Int.mul_tmod_left _ _
  rw [e1, e2, e3, e4, sample_zero_zero, toUbyte_rd]

theorem rd_SamplePattern_identity (b : LRound) (image : Ptr) (stride tx ty : Int)
    (htx : 8 ≤ tx ∧ tx + 7 < 8388608) (hty : 8 ≤ ty ∧ ty + 7 < 8388608) (pattern : Ptr)
    (i j : Nat) (hi : i < 16) (hj : j < 16) :
    rd (SamplePattern b image stride ⟨1, 0, tx, 0, 1, ty⟩ pattern) ((i : Int) * 16 + (j : Int))
      = rd (offset image ((ty - 8) * stride + (tx - 8))) ((i : Int) * stride + (j : Int)) := by
  have h := SamplePattern_identity b image stride tx ty htx hty pattern ⟨i, hi⟩ ⟨j, hj⟩
  simp only [rd, offset]
  simp only [] at h
  rw [h]
  congr 3
  ring

theorem mat32_eq_of_identity (warp : mat32) (tx ty : Int)
    (hlin : warp.m00 = 1 ∧ warp.m01 = 0 ∧ warp.m10 = 0 ∧ warp.m11 = 1)
    (htr : warp.m02 = (tx : ℚ) ∧ warp.m12 = (ty : ℚ)) :
    warp = ⟨1, 0, tx, 0, 1, ty⟩ := by
  obtain ⟨a, b, c, d, e, f⟩ := warp
  obtain ⟨h1, h2, h3, h4⟩ := hlin
  obtain ⟨h5, h6⟩ := htr
  simp only at h1 h2 h3 h4 h5 h6
  subst h1 h2 h3 h4 h5 h6
  rfl

/-- C7 (amended): for every image and every affine position whose linear
part is the identity and whose translation `(tx, ty)` is an integer pair
with `8 <= tx`, `tx + 7 < 2^23`, `8 <= ty` and `ty + 7 < 2^23` (every
fixed-point coordinate `(t-8+j)*256` of the footprint fits the 32-bit `int`
that `lround` returns), `SamplePattern` writes
`pattern[i*16+j] = image[(ty-8+i)*stride + (tx-8+j)]` for all `0 <= i, j < 16`:
an exact 16x16 crop of the source image (for each build of `lround`). -/
theorem SamplePattern_identity_crop (b : LRound) (image : Ptr) (stride : Int) (warp : mat32)
    (tx ty : Int) (hlin : warp.m00 = 1 ∧ warp.m01 = 0 ∧ warp.m10 = 0 ∧ warp.m11 = 1)
    (htr : warp.m02 = (tx : ℚ) ∧ warp.m12 = (ty : ℚ))
    (htx : 8 ≤ tx ∧ tx + 7 < 8388608) (hty : 8 ≤ ty ∧ ty + 7 < 8388608)
    (pattern : Ptr) (i j : Fin 16) :
    SamplePattern b image stride warp pattern ((i.val : Int) * 16 + (j.val : Int))
      = image ((ty - 8 + (i.val : Int)) * stride + (tx - 8 + (j.val : Int))) := by
  rw [mat32_eq_of_identity warp tx ty hlin htr]
  exact SamplePattern_identity b image stride tx ty htx hty pattern i j

/-- C9 (amended): for every image and every identity-linear affine position
with integer translation `(tx, ty)`, `8 <= tx`, `tx + 7 < 2^23`, `8 <= ty`,
`ty + 7 < 2^23`, the `SAD` distance (in either build) between the template
captured by `SamplePattern` at that position and the image window whose
top-left pixel is `(tx-8, ty-8)` is 0. -/
theorem SAD_SamplePattern_self (sse2 : Bool) (b : LRound) (image : Ptr) (stride : Int)
    (warp : mat32) (tx ty : Int)
    (hlin : warp.m00 = 1 ∧ warp.m01 = 0 ∧ warp.m10 = 0 ∧ warp.m11 = 1)
    (htr : warp.m02 = (tx : ℚ) ∧ warp.m12 = (ty : ℚ))
    (htx : 8 ≤ tx ∧ tx + 7 < 8388608) (hty : 8 ≤ ty ∧ ty + 7 < 8388608)
    (pattern : Ptr) :
    SAD sse2 (SamplePattern b image stride warp pattern)
      (offset image ((ty - 8) * stride + (tx - 8))) stride = 0 := by
  rw [mat32_eq_of_identity warp tx ty hlin htr, SAD_eq]
  unfold sumAbsDiff
  refine Finset.sum_eq_zero (fun i hi => Finset.sum_eq_zero (fun j hj => ?_))
  rw [rd_SamplePattern_identity b image stride tx ty htx hty pattern i j
    (Finset.mem_range.mp hi) (Finset.mem_range.mp hj)]
  simp

/-! ## The correlation stage -/

theorem toUint_lt (z : Int) : toUint z < 4294967296 := by
  unfold toUint; omega

theorem toUint_cast (z : Int) : ((toUint z : Nat) : Int) = z % 4294967296 := by
  unfold toUint; omega

theorem iter_field_emod {σ : Type} (π : σ → Nat) (lo : Int) (F : Int → Int)
    (body : Int → σ → σ)
    (hb : ∀ i s, ((π (body i s) : Nat) : Int) % 4294967296 = ((π s : Int) + F i) % 4294967296)
    (n : Nat) (s : σ) :
    ((π (iter lo n body s) : Nat) : Int) % 4294967296
      = ((π s : Int) + ∑ t in range n, F (lo + t)) % 4294967296 := by
  induction n with
  | zero => simp [iter]
  | succ n ih =>
    rw [iter_succ, hb, Int.add_emod, ih, Finset.sum_range_succ, ← Int.add_emod, add_assoc]

/-- A field of the five sums that the loop body updates by `toUint (field + T i j)`
holds the sum of `T` modulo `2^32` after the loop. -/
theorem accumulate_field (X Y : Int → Int → Int) (π : Sums → Nat) (T : Int → Int → Int)
    (h0 : π ⟨0, 0, 0, 0, 0⟩ = 0)
    (hstep : ∀ (i j : Int) (s : Sums),
      π { sX := toUint (s.sX + X i j)
          sY := toUint (s.sY + Y i j)
          sXX := toUint (s.sXX + X i j * X i j)
          sYY := toUint (s.sYY + Y i j * Y i j)
          sXY := toUint (s.sXY + X i j * Y i j) } = toUint (π s + T i j)) :
    ((π (accumulate X Y) : Nat) : Int) = sum2 T % 4294967296 := by
  have hin : ∀ (i : Int) (s : Sums),
      ((π (forLoop 0 16 (fun j s =>
        ({ sX := toUint (s.sX + X i j)
           sY := toUint (s.sY + Y i j)
           sXX := toUint (s.sXX + X i j * X i j)
           sYY := toUint (s.sYY + Y i j * Y i j)
           sXY := toUint (s.sXY + X i j * Y i j) } : Sums)) s) : Nat) : Int) % 4294967296
      = ((π s : Int) + ∑ j in range 16, T i (j : Int)) % 4294967296 := by
    intro i s
    rw [forLoop_zero_sixteen, iter_field_emod π 0 (fun j => T i j) _ (fun j s => by
      rw [hstep, toUint_cast, Int.emod_emod_of_dvd _ (dvd_refl _)])]
    simp
  have hout : ((π (accumulate X Y) : Nat) : Int) % 4294967296
      = ((π ⟨0, 0, 0, 0, 0⟩ : Int) + ∑ t in range 16, ∑ j in range 16, T (0 + (t : Int)) (j : Int))
        % 4294967296 :=
    iter_field_emod π 0 (fun i => ∑ j in range 16, T i (j : Int)) _ hin 16 ⟨0, 0, 0, 0, 0⟩
  have hlt : π (accumulate X Y) < 4294967296 := by
    unfold accumulate
    rw [forLoop_zero_sixteen, iter_succ, forLoop_zero_sixteen, iter_succ, hstep]
    exact toUint_lt _
  simp only [h0, zero_add, Nat.cast_zero] at hout
  unfold sum2
  omega

theorem accumulate_sX (X Y : Int → Int → Int) :
    (((accumulate X Y).sX : Nat) : Int) = sum2 X % 4294967296 :=
  accumulate_field X Y (fun s => s.sX) X rfl (fun _ _ _ => rfl)

theorem accumulate_sY (X Y : Int → Int → Int) :
    (((accumulate X Y).sY : Nat) : Int) = sum2 Y % 4294967296 :=
  accumulate_field X Y (fun s => s.sY) Y rfl (fun _ _ _ => rfl)

theorem accumulate_sXX (X Y : Int → Int → Int) :
    (((accumulate X Y).sXX : Nat) : Int) = sum2 (fun i j => X i j * X i j) % 4294967296 :=
  accumulate_field X Y (fun s => s.sXX) (fun i j => X i j * X i j) rfl (fun _ _ _ => rfl)

theorem accumulate_sYY (X Y : Int → Int → Int) :
    (((accumulate X Y).sYY : Nat) : Int) = sum2 (fun i j => Y i j * Y i j) % 4294967296 :=
  accumulate_field X Y (fun s => s.sYY) (fun i j => Y i j * Y i j) rfl (fun _ _ _ => rfl)

theorem accumulate_sXY (X Y : Int → Int → Int) :
    (((accumulate X Y).sXY : Nat) : Int) = sum2 (fun i j => X i j * Y i j) % 4294967296 :=
  accumulate_field X Y (fun s => s.sXY) (fun i j => X i j * Y i j) rfl (fun _ _ _ => rfl)

theorem sum2_congr (S T : Int → Int → Int)
    (h : ∀ i j : Nat, i < 16 → j < 16 → S i j = T i j) : sum2 S = sum2 T := by
  unfold sum2
  exact Finset.sum_congr rfl (fun i hi => Finset.sum_congr rfl (fun j hj =>
    h i j (Finset.mem_range.mp hi) (Finset.mem_range.mp hj)))

theorem sum2_nonneg (T : Int → Int → Int)
    (h : ∀ i j : Nat, i < 16 → j < 16 → 0 ≤ T i j) : 0 ≤ sum2 T := by
  unfold sum2
  exact Finset.sum_nonneg (fun i hi => Finset.sum_nonneg (fun j hj =>
    h i j (Finset.mem_range.mp hi) (Finset.mem_range.mp hj)))

theorem sum2_le (T : Int → Int → Int) (B : Int)
    (h : ∀ i j : Nat, i < 16 → j < 16 → T i j ≤ B) : sum2 T ≤ 256 * B := by
  unfold sum2
  calc _ ≤ ∑ _i in range 16, ∑ _j in range 16, B :=
        Finset.sum_le_sum (fun i hi => Finset.sum_le_sum (fun j hj =>
          h i j (Finset.mem_range.mp hi) (Finset.mem_range.mp hj)))
    _ = 256 * B := by simp; ring

/-- Cauchy-Schwarz against the constant one: `(Σ T)^2 ≤ 256 Σ T^2`. -/
theorem sum2_sq_le (T : Int → Int → Int) :
    sum2 T * sum2 T ≤ 256 * sum2 (fun i j => T i j * T i j) := by
  have h := Finset.sum_mul_sq_le_sq_mul_sq (range 16 ×ˢ range 16)
    (fun p : Nat × Nat => T (p.1 : Int) (p.2 : Int)) (fun _ => (1 : Int))
  have e1 : ∑ p ∈ range 16 ×ˢ range 16, T (p.1 : Int) (p.2 : Int) * 1 = sum2 T := by
    unfold sum2
    rw [Finset.sum_product]
    simp
  have e2 : ∑ p ∈ range 16 ×ˢ range 16, T (p.1 : Int) (p.2 : Int) ^ 2
      = sum2 (fun i j => T i j * T i j) := by
    unfold sum2
    rw [Finset.sum_product]
    simp [sq]
  have e3 : ∑ _p ∈ range 16 ×ˢ range 16, (1 : Int) ^ 2 = 256 := by simp
  rw [e1, e2, e3] at h
  nlinarith [h]

/-- The truncated mean square dominates the square of the truncated mean. -/
theorem sq_div_le_div (A Q : Int) (hA : 0 ≤ A) (h : A * A ≤ 256 * Q) :
    (A / 256) * (A / 256) ≤ Q / 256 := by
  have h1 : 256 * (A / 256) ≤ A := Int.mul_ediv_self_le (by norm_num)
  have h0 : 0 ≤ A / 256 := Int.ediv_nonneg hA (by norm_num)
  have h2 : (256 * (A / 256)) * (256 * (A / 256)) ≤ A * A := by nlinarith
  have h3 : 256 * ((A / 256) * (A / 256)) ≤ Q := by nlinarith
  omega

theorem patternValues_isByteGrid (pattern : Ptr) : IsByteGrid (patternValues pattern) :=
  fun _ _ _ _ => ⟨rd_nonneg _ _, rd_le _ _⟩

theorem sum2_byte_bounds (X : Int → Int → Int) (hX : IsByteGrid X) :
    0 ≤ sum2 X ∧ sum2 X ≤ 65280 := by
  refine ⟨sum2_nonneg X (fun i j hi hj => (hX i j hi hj).1), ?_⟩
  have := sum2_le X 255 (fun i j hi hj => (hX i j hi hj).2)
  omega

theorem sum2_mul_byte_bounds (X Y : Int → Int → Int) (hX : IsByteGrid X) (hY : IsByteGrid Y) :
    0 ≤ sum2 (fun i j => X i j * Y i j) ∧ sum2 (fun i j => X i j * Y i j) ≤ 16646400 := by
  refine ⟨sum2_nonneg _ (fun i j hi hj => mul_nonneg (hX i j hi hj).1 (hY i j hi hj).1), ?_⟩
  have := sum2_le (fun i j => X i j * Y i j) 65025 (fun i j hi hj => by
    have h1 := hX i j hi hj
    have h2 := hY i j hi hj
    show X i j * Y i j ≤ 65025
    nlinarith)
  omega

/-- On byte grids no accumulator wraps: after the division by `N` the five
fields are the truncated means. -/
theorem divN_byte (X Y : Int → Int → Int) (hX : IsByteGrid X) (hY : IsByteGrid Y) :
    (((accumulate X Y).divN.sX : Nat) : Int) = sum2 X / 256
    ∧ (((accumulate X Y).divN.sY : Nat) : Int) = sum2 Y / 256
    ∧ (((accumulate X Y).divN.sXX : Nat) : Int) = sum2 (fun i j => X i j * X i j) / 256
    ∧ (((accumulate X Y).divN.sYY : Nat) : Int) = sum2 (fun i j => Y i j * Y i j) / 256
    ∧ (((accumulate X Y).divN.sXY : Nat) : Int) = sum2 (fun i j => X i j * Y i j) / 256 := by
  have a1 := accumulate_sX X Y
  have a2 := accumulate_sY X Y
  have a3 := accumulate_sXX X Y
  have a4 := accumulate_sYY X Y
  have a5 := accumulate_sXY X Y
  have b1 := sum2_byte_bounds X hX
  have b2 := sum2_byte_bounds Y hY
  have b3 := sum2_mul_byte_bounds X X hX hX
  have b4 := sum2_mul_byte_bounds Y Y hY hY
  have b5 := sum2_mul_byte_bounds X Y hX hY
  simp only [Sums.divN]
  refine ⟨?_, ?_, ?_, ?_, ?_⟩ <;> omega

/-- The truncated variance term of a byte grid does not wrap: it is the
truncated mean square minus the square of the truncated mean. -/
theorem varX_byte (X Y : Int → Int → Int) (hX : IsByteGrid X) (hY : IsByteGrid Y) :
    (((accumulate X Y).divN.varX : Nat) : Int)
      = sum2 (fun i j => X i j * X i j) / 256 - (sum2 X / 256) * (sum2 X / 256)
    ∧ (accumulate X Y).divN.varX ≤ 65025 := by
  obtain ⟨h1, _, h3, _, _⟩ := divN_byte X Y hX hY
  have b1 := sum2_byte_bounds X hX
  have b3 := sum2_mul_byte_bounds X X hX hX
  have cs := sq_div_le_div _ _ b1.1 (sum2_sq_le X)
  have hm : 0 ≤ sum2 X / 256 ∧ sum2 X / 256 ≤ 255 := by omega
  have hsq : (sum2 X / 256) * (sum2 X / 256) ≤ 65025 := by nlinarith
  have hsq0 : 0 ≤ (sum2 X / 256) * (sum2 X / 256) := by nlinarith
  have hq : sum2 (fun i j => X i j * X i j) / 256 ≤ 65025 := by omega
  have e : (((accumulate X Y).divN.varX : Nat) : Int)
      = sum2 (fun i j => X i j * X i j) / 256 - (sum2 X / 256) * (sum2 X / 256) := by
    simp only [Sums.varX, usub, umul, UINT, toUint_cast]
    push_cast
    rw [h1, h3]
    generalize sum2 (fun i j => X i j * X i j) / 256 = q at *
    generalize (sum2 X / 256) * (sum2 X / 256) = p at *
    omega
  refine ⟨e, ?_⟩
  omega

/-- When the window equals the pattern, the covariance numerator and both
variance terms are one and the same number, below `2^16`. -/
theorem divN_self (X Y : Int → Int → Int) (hX : IsByteGrid X)
    (hY : ∀ i j : Nat, i < 16 → j < 16 → Y i j = X i j) :
    (accumulate X Y).divN.cov = (accumulate X Y).divN.varX
    ∧ (accumulate X Y).divN.varY = (accumulate X Y).divN.varX
    ∧ (accumulate X Y).divN.varX ≤ 65025 := by
  have hYb : IsByteGrid Y := fun i j hi hj => by rw [hY i j hi hj]; exact hX i j hi hj
  obtain ⟨h1, h2, h3, h4, h5⟩ := divN_byte X Y hX hYb
  have e1 : sum2 Y = sum2 X := sum2_congr _ _ hY
  have e2 : sum2 (fun i j => Y i j * Y i j) = sum2 (fun i j => X i j * X i j) :=
    sum2_congr _ _ (fun i j hi hj => by simp only [hY i j hi hj])
  have e3 : sum2 (fun i j => X i j * Y i j) = sum2 (fun i j => X i j * X i j) :=
    sum2_congr _ _ (fun i j hi hj => by simp only [hY i j hi hj])
  rw [e1] at h2
  rw [e2] at h4
  rw [e3] at h5
  have f1 : (accumulate X Y).divN.sY = (accumulate X Y).divN.sX := by omega
  have f2 : (accumulate X Y).divN.sYY = (accumulate X Y).divN.sXX := by omega
  have f3 : (accumulate X Y).divN.sXY = (accumulate X Y).divN.sXX := by omega
  refine ⟨?_, ?_, (varX_byte X Y hX hYb).2⟩
  · simp only [Sums.cov, Sums.varX, f1, f3]
  · simp only [Sums.varY, Sums.varX, f1, f2]

theorem fdivSqrt_self (v : Nat) (hv : v ≠ 0) (hle : v ≤ 65025) :
    fdivSqrt v (umul v v) = .quot v (v * v) ∧ (Confidence.quot v (v * v)).HasValue 1 := by
  have hlt : v * v < 4294967296 := by nlinarith
  have hne : v * v ≠ 0 := Nat.mul_ne_zero hv hv
  have hu : umul v v = v * v := Nat.mod_eq_of_lt hlt
  refine ⟨by simp [fdivSqrt, hu, hne], ?_⟩
  show (1 : ℝ) = (v : ℝ) / Real.sqrt ((v * v : Nat) : ℝ)
  have hv0 : (0 : ℝ) ≤ (v : ℝ) := Nat.cast_nonneg v
  have hvne : (v : ℝ) ≠ 0 := Nat.cast_ne_zero.mpr hv
  rw [Nat.cast_mul, Real.sqrt_mul_self hv0, div_self hvne]

theorem varX_indep (X Y Z : Int → Int → Int) :
    (accumulate X Y).divN.varX = (accumulate X Z).divN.varX := by
  have a1 := accumulate_sX X Y
  have a2 := accumulate_sX X Z
  have a3 := accumulate_sXX X Y
  have a4 := accumulate_sXX X Z
  have f1 : (accumulate X Y).sX = (accumulate X Z).sX := by omega
  have f2 : (accumulate X Y).sXX = (accumulate X Z).sXX := by omega
  simp only [Sums.varX, Sums.divN, f1, f2]

theorem Track_confidence (sse2 : Bool) (pattern image : Ptr) (stride w h : Int) (warp : mat32) :
    (Track sse2 pattern image stride w h warp).2
      = correlation (patternValues pattern)
          (windowValues image stride (finalPosition sse2 pattern image stride w h warp)) := rfl

theorem candidate_min_zero (pattern image : Ptr) (stride ix iy fx fy k x y : Int) (r : Frac)
    (h : r.min = 0) : candidate pattern image stride ix iy fx fy k x y r = r := by
  simp [candidate, h]

theorem refineStep_min_zero (pattern image : Ptr) (stride ix iy k fx fy : Int) :
    refineStep pattern image stride ix iy k ⟨0, fx, fy⟩ = ⟨0, fx * 2, fy * 2⟩ := by
  have h3 : ((2 : Int) - (-1)).toNat = 3 := rfl
  simp only [refineStep, forLoop, h3, iter, candidate_min_zero]

/-- A zero-distance integer match is not moved by the refinement. -/
theorem refine_min_zero (pattern image : Ptr) (stride ix iy : Int) :
    refine pattern image stride ix iy 0 = ⟨0, 0, 0⟩ := by
  have h4 : ((kPrecision + 1 : Int) - 1).toNat = 4 := rfl
  simp only [refine, forLoop, h4, iter, refineStep_min_zero]
  norm_num

/-- C8: for every template whose integer-truncated variance term is non-zero,
when the final matched window equals the template itself, the confidence
computed by the correlation stage of `Track` is exactly 1: the unsigned
covariance numerator equals the variance term, the variance product does not
overflow 32 bits, and its square root equals the variance term. -/
theorem Track_self_match (sse2 : Bool) (pattern image : Ptr) (stride w h : Int) (warp : mat32)
    (hwin : ∀ i j : Fin 16,
      windowValues image stride (finalPosition sse2 pattern image stride w h warp)
        (i.val : Int) (j.val : Int) = patternValues pattern (i.val : Int) (j.val : Int))
    (hvar : templateVar pattern ≠ 0) :
    (accumulate (patternValues pattern)
      (windowValues image stride (finalPosition sse2 pattern image stride w h warp))).divN.cov
        = templateVar pattern
    ∧ (accumulate (patternValues pattern)
      (windowValues image stride (finalPosition sse2 pattern image stride w h warp))).divN.varX
        = templateVar pattern
    ∧ (accumulate (patternValues pattern)
      (windowValues image stride (finalPosition sse2 pattern image stride w h warp))).divN.varY
        = templateVar pattern
    ∧ templateVar pattern * templateVar pattern < 4294967296
    ∧ Real.sqrt ((umul (templateVar pattern) (templateVar pattern) : Nat) : ℝ)
        = (templateVar pattern : ℝ)
    ∧ (Track sse2 pattern image stride w h warp).2
        = .quot (templateVar pattern) (templateVar pattern * templateVar pattern)
    ∧ (Track sse2 pattern image stride w h warp).2.HasValue 1 := by
  have hY : ∀ i j : Nat, i < 16 → j < 16 →
      windowValues image stride (finalPosition sse2 pattern image stride w h warp) (i : Int) (j : Int)
        = patternValues pattern (i : Int) (j : Int) :=
    fun i j hi hj => hwin ⟨i, hi⟩ ⟨j, hj⟩
  obtain ⟨hc, hy, hle⟩ := divN_self _ _ (patternValues_isByteGrid pattern) hY
  have hx : (accumulate (patternValues pattern)
      (windowValues image stride (finalPosition sse2 pattern image stride w h warp))).divN.varX
        = templateVar pattern := varX_indep _ _ _
  rw [hx] at hc hy hle
  obtain ⟨hq, hval⟩ := fdivSqrt_self (templateVar pattern) hvar hle
  have hlt : templateVar pattern * templateVar pattern < 4294967296 := by nlinarith
  refine ⟨hc, hx, hy, hlt, ?_, ?_, ?_⟩
  · have hu : umul (templateVar pattern) (templateVar pattern)
        = templateVar pattern * templateVar pattern := Nat.mod_eq_of_lt hlt
    rw [hu, Nat.cast_mul, Real.sqrt_mul_self (Nat.cast_nonneg _)]
  · rw [Track_confidence]
    simp only [correlation, hc, hx, hy]
    exact hq
  · rw [Track_confidence]
    simp only [correlation, hc, hx, hy]
    rw [hq]
    exact hval

/-! ## Phase 1: the exhaustive integer search -/

theorem searchInv_step (d : Int → Int → Nat) (W : Nat) (s0 : Best)
    (hd : ∀ x y, d x y < s0.min) (Y X : Nat) (hX : X < W) (s : Best)
    (h : SearchInv d W s0 Y X s) :
    SearchInv d W s0 Y (X + 1)
      (if d (0 + (X : Int)) (0 + (Y : Int)) < s.min
        then ⟨d (0 + (X : Int)) (0 + (Y : Int)), 0 + (X : Int), 0 + (Y : Int)⟩ else s) := by
  simp only [zero_add]
  obtain ⟨h1, h2⟩ := h
  have hb : ∀ x y : Nat, before y x Y (X + 1) → before y x Y X ∨ (y = Y ∧ x = X) := by
    intro x y hxy
    unfold before at hxy ⊢
    omega
  by_cases hlt : d (X : Int) (Y : Int) < s.min
  · rw [if_pos hlt]
    refine ⟨?_, Or.inr ⟨X, Y, rfl, rfl, hX, ?_, rfl, ?_⟩⟩
    · intro x y hx hxy
      rcases hb x y hxy with hv | ⟨rfl, rfl⟩
      · have := h1 x y hx hv
        show d (X : Int) (Y : Int) ≤ d x y
        omega
      · exact le_refl _
    · unfold before; omega
    · intro x y hx hxy heq
      rcases hb x y hxy with hv | ⟨rfl, rfl⟩
      · have := h1 x y hx hv
        have heq2 : d (x : Int) (y : Int) = d (X : Int) (Y : Int) := heq
        omega
      · unfold before; omega
  · rw [if_neg hlt]
    refine ⟨?_, ?_⟩
    · intro x y hx hxy
      rcases hb x y hxy with hv | ⟨rfl, rfl⟩
      · exact h1 x y hx hv
      · omega
    · rcases h2 with ⟨rfl, _⟩ | ⟨bx, by', e1, e2, hbx, hbef, hmin, hfirst⟩
      · exact absurd (hd (X : Int) (Y : Int)) hlt
      · refine Or.inr ⟨bx, by', e1, e2, hbx, ?_, hmin, ?_⟩
        · unfold before at hbef ⊢; omega
        · intro x y hx hxy heq
          rcases hb x y hxy with hv | ⟨rfl, rfl⟩
          · exact hfirst x y hx hv heq
          · unfold before at hbef ⊢; omega

theorem searchInv_row (d : Int → Int → Nat) (W : Nat) (s0 : Best)
    (hd : ∀ x y, d x y < s0.min) (Y : Nat) (s : Best) (h : SearchInv d W s0 Y 0 s) :
    SearchInv d W s0 (Y + 1) 0
      (iter 0 W (fun x s =>
        if d x (0 + (Y : Int)) < s.min then ⟨d x (0 + (Y : Int)), x, 0 + (Y : Int)⟩ else s) s) := by
  have key := iter_invariant (fun n s => SearchInv d W s0 Y n s) 0
    (fun x s =>
      if d x (0 + (Y : Int)) < s.min then ⟨d x (0 + (Y : Int)), x, 0 + (Y : Int)⟩ else s) W s h
    (fun t s ht hs => searchInv_step d W s0 hd Y t ht s hs)
  obtain ⟨k1, k2⟩ := key
  have hb : ∀ x y : Nat, x < W → (before y x (Y + 1) 0 ↔ before y x Y W) := by
    intro x y hx
    unfold before
    omega
  refine ⟨fun x y hx hxy => k1 x y hx ((hb x y hx).mp hxy), ?_⟩
  rcases k2 with ⟨e, hnone⟩ | ⟨bx, by', e1, e2, hbx, hbef, hmin, hfirst⟩
  · exact Or.inl ⟨e, fun x y hx hxy => hnone x y hx ((hb x y hx).mp hxy)⟩
  · exact Or.inr ⟨bx, by', e1, e2, hbx, (hb bx by' hbx).mpr hbef, hmin,
      fun x y hx hxy heq => hfirst x y hx ((hb x y hx).mp hxy) heq⟩

theorem searchInv_scan (d : Int → Int → Nat) (W H : Nat) (s0 : Best)
    (hd : ∀ x y, d x y < s0.min) :
    SearchInv d W s0 H 0
      (iter 0 H (fun y s => iter 0 W (fun x s =>
        if d x y < s.min then ⟨d x y, x, y⟩ else s) s) s0) := by
  refine iter_invariant (fun n s => SearchInv d W s0 n 0 s) 0 _ H s0 ?_ ?_
  · refine ⟨fun x y _ hxy => ?_, Or.inl ⟨rfl, fun x y _ hxy => ?_⟩⟩
    · unfold before at hxy; omega
    · unfold before at hxy; omega
  · intro t s _ hs
    exact searchInv_row d W s0 hd t s hs

theorem SAD_eq_zero_of_dup (sse2 : Bool) (pattern image : Ptr) (stride x y : Int)
    (hdup : ∀ i j : Fin 16, pattern ((i.val : Int) * 16 + (j.val : Int))
      = image ((y + (i.val : Int)) * stride + (x + (j.val : Int)))) :
    SAD sse2 pattern (offset image (y * stride + x)) stride = 0 := by
  rw [SAD_eq]
  unfold sumAbsDiff
  refine Finset.sum_eq_zero (fun i hi => Finset.sum_eq_zero (fun j hj => ?_))
  have h := hdup ⟨i, Finset.mem_range.mp hi⟩ ⟨j, Finset.mem_range.mp hj⟩
  simp only [] at h
  have e : y * stride + x + ((i : Int) * stride + (j : Int))
      = (y + (i : Int)) * stride + (x + (j : Int)) := by ring
  simp only [rd, offset, h, e]
  simp

theorem integerSearch_inv (sse2 : Bool) (pattern image : Ptr) (stride w h ix0 iy0 : Int) :
    SearchInv (fun x y => SAD sse2 pattern (offset image (y * stride + x)) stride)
      (w - 16 - 0).toNat ⟨toUint (-1), ix0, iy0⟩ (h - 16 - 0).toNat 0
      (integerSearch sse2 pattern image stride w h ⟨toUint (-1), ix0, iy0⟩) := by
  refine searchInv_scan (fun x y => SAD sse2 pattern (offset image (y * stride + x)) stride)
    (w - 16 - 0).toNat (h - 16 - 0).toNat ⟨toUint (-1), ix0, iy0⟩ (fun x y => ?_)
  have := SAD_le sse2 pattern (offset image (y * stride + x)) stride
  show SAD sse2 pattern (offset image (y * stride + x)) stride < toUint (-1)
  have e : toUint (-1) = 4294967295 := by decide
  omega

/-- What Phase 1 computes when the scanned range is not empty. -/
theorem integerSearch_spec (sse2 : Bool) (pattern image : Ptr) (stride w h ix0 iy0 : Int)
    (hw : 16 < w) (hh : 16 < h) :
    (0 ≤ (integerSearch sse2 pattern image stride w h ⟨toUint (-1), ix0, iy0⟩).ix
      ∧ (integerSearch sse2 pattern image stride w h ⟨toUint (-1), ix0, iy0⟩).ix < w - 16
      ∧ 0 ≤ (integerSearch sse2 pattern image stride w h ⟨toUint (-1), ix0, iy0⟩).iy
      ∧ (integerSearch sse2 pattern image stride w h ⟨toUint (-1), ix0, iy0⟩).iy < h - 16)
    ∧ (integerSearch sse2 pattern image stride w h ⟨toUint (-1), ix0, iy0⟩).min
        = SAD sse2 pattern (offset image
            ((integerSearch sse2 pattern image stride w h ⟨toUint (-1), ix0, iy0⟩).iy * stride
              + (integerSearch sse2 pattern image stride w h ⟨toUint (-1), ix0, iy0⟩).ix)) stride
    ∧ ∀ x y : Int, 0 ≤ x → x < w - 16 → 0 ≤ y → y < h - 16 →
        (integerSearch sse2 pattern image stride w h ⟨toUint (-1), ix0, iy0⟩).min
            ≤ SAD sse2 pattern (offset image (y * stride + x)) stride
        ∧ (SAD sse2 pattern (offset image (y * stride + x)) stride
              = (integerSearch sse2 pattern image stride w h ⟨toUint (-1), ix0, iy0⟩).min →
            (integerSearch sse2 pattern image stride w h ⟨toUint (-1), ix0, iy0⟩).iy < y
            ∨ ((integerSearch sse2 pattern image stride w h ⟨toUint (-1), ix0, iy0⟩).iy = y
              ∧ (integerSearch sse2 pattern image stride w h ⟨toUint (-1), ix0, iy0⟩).ix ≤ x)) := by
  obtain ⟨h1, h2⟩ := integerSearch_inv sse2 pattern image stride w h ix0 iy0
  generalize integerSearch sse2 pattern image stride w h ⟨toUint (-1), ix0, iy0⟩ = s at h1 h2 ⊢
  have hW : 0 < (w - 16 - 0).toNat := by omega
  have hH : 0 < (h - 16 - 0).toNat := by omega
  rcases h2 with ⟨_, hnone⟩ | ⟨bx, by', e1, e2, hbx, hbef, hmin, hfirst⟩
  · exact absurd (Or.inl hH) (hnone 0 0 hW)
  · have hby : by' < (h - 16 - 0).toNat := by unfold before at hbef; omega
    refine ⟨by omega, ?_, ?_⟩
    · rw [hmin, e1, e2]
    · intro x y hx0 hx hy0 hy
      have hxW : x.toNat < (w - 16 - 0).toNat := by omega
      have hvis : before y.toNat x.toNat (h - 16 - 0).toNat 0 := by unfold before; omega
      have ex : ((x.toNat : Nat) : Int) = x := by omega
      have ey : ((y.toNat : Nat) : Int) = y := by omega
      have a1 := h1 x.toNat y.toNat hxW hvis
      have a2 := hfirst x.toNat y.toNat hxW hvis
      simp only [ex, ey] at a1 a2
      refine ⟨a1, fun heq => ?_⟩
      have a3 := a2 heq
      unfold before at a3
      omega

/-! ## Phase 2: the sub-pixel refinement -/

theorem integerSearch_empty (sse2 : Bool) (pattern image : Ptr) (stride w h : Int) (s : Best)
    (hempty : w ≤ 16 ∨ h ≤ 16) : integerSearch sse2 pattern image stride w h s = s := by
  unfold integerSearch forLoop
  rcases hempty with hw | hh
  · have hW : (w - 16 - 0).toNat = 0 := by omega
    rw [hW]
    exact iter_invariant (fun _ t => t = s) 0 _ _ s rfl (fun t u _ hu => by simp only [iter]; exact hu)
  · have hH : (h - 16 - 0).toNat = 0 := by omega
    rw [hH]
    rfl

theorem candidate_near (pattern image : Ptr) (stride ix iy fx fy k x y : Int) (r : Frac)
    (hx : -1 ≤ x ∧ x ≤ 1) (hy : -1 ≤ y ∧ y ≤ 1)
    (hr : (fx - 1 ≤ r.fx ∧ r.fx ≤ fx + 1) ∧ (fy - 1 ≤ r.fy ∧ r.fy ≤ fy + 1)) :
    (fx - 1 ≤ (candidate pattern image stride ix iy fx fy k x y r).fx
      ∧ (candidate pattern image stride ix iy fx fy k x y r).fx ≤ fx + 1)
    ∧ (fy - 1 ≤ (candidate pattern image stride ix iy fx fy k x y r).fy
      ∧ (candidate pattern image stride ix iy fx fy k x y r).fy ≤ fy + 1) := by
  unfold candidate
  simp only []
  split_ifs <;> first | exact hr | (simp only []; omega)

theorem refineStep_near (pattern image : Ptr) (stride ix iy k : Int) (s : Frac) :
    (s.fx * 2 - 1 ≤ (refineStep pattern image stride ix iy k s).fx
      ∧ (refineStep pattern image stride ix iy k s).fx ≤ s.fx * 2 + 1)
    ∧ (s.fy * 2 - 1 ≤ (refineStep pattern image stride ix iy k s).fy
      ∧ (refineStep pattern image stride ix iy k s).fy ≤ s.fy * 2 + 1) := by
  unfold refineStep forLoop
  have h3 : ((2 : Int) - (-1)).toNat = 3 := rfl
  simp only [h3]
  refine iter_invariant (fun _ (r : Frac) =>
    (s.fx * 2 - 1 ≤ r.fx ∧ r.fx ≤ s.fx * 2 + 1) ∧ (s.fy * 2 - 1 ≤ r.fy ∧ r.fy ≤ s.fy * 2 + 1))
    (-1) _ 3 _ (by simp only []; omega) ?_
  intro ty r hty hr
  refine iter_invariant (fun _ (r : Frac) =>
    (s.fx * 2 - 1 ≤ r.fx ∧ r.fx ≤ s.fx * 2 + 1) ∧ (s.fy * 2 - 1 ≤ r.fy ∧ r.fy ≤ s.fy * 2 + 1))
    (-1) _ 3 _ hr ?_
  intro tx r2 htx hr2
  exact candidate_near pattern image stride ix iy _ _ k _ _ r2 (by omega) (by omega) hr2

/-- After its four iterations the refinement holds a fraction of at most
fifteen sixteenths in absolute value on each axis. -/
theorem refine_bound (pattern image : Ptr) (stride ix iy : Int) (min : Nat) :
    (-15 ≤ (refine pattern image stride ix iy min).fx
      ∧ (refine pattern image stride ix iy min).fx ≤ 15)
    ∧ (-15 ≤ (refine pattern image stride ix iy min).fy
      ∧ (refine pattern image stride ix iy min).fy ≤ 15) := by
  unfold refine forLoop
  have h4 : ((kPrecision + 1 : Int) - 1).toNat = 4 := rfl
  rw [h4]
  have key := iter_invariant (fun n (r : Frac) =>
    (-((2 : Int) ^ n - 1) ≤ r.fx ∧ r.fx ≤ (2 : Int) ^ n - 1)
    ∧ (-((2 : Int) ^ n - 1) ≤ r.fy ∧ r.fy ≤ (2 : Int) ^ n - 1))
    1 (refineStep pattern image stride ix iy) 4 ⟨min, 0, 0⟩ (by simp) (by
      intro t r _ hr
      have hs := refineStep_near pattern image stride ix iy (1 + (t : Int)) r
      have hp : (2 : Int) ^ (t + 1) = 2 * 2 ^ t := by ring
      rw [hp]
      generalize (2 : Int) ^ t = P at hr ⊢
      omega)
  norm_num at key
  exact key

/-! ## `Track`: the affine position written back -/

/-- The translation written back is the Phase 1 position, re-centred by 8,
plus the Phase 2 fraction in sixteenths. -/
theorem Track_translation (sse2 : Bool) (pattern image : Ptr) (stride w h : Int) (warp : mat32) :
    (Track sse2 pattern image stride w h warp).1.m02
      = ((integerSearch sse2 pattern image stride w h
          ⟨toUint (-1), truncToInt (warp.m02 - 8), truncToInt (warp.m12 - 8)⟩).ix : ℚ) + 8
        + ((refine pattern image stride
            (integerSearch sse2 pattern image stride w h
              ⟨toUint (-1), truncToInt (warp.m02 - 8), truncToInt (warp.m12 - 8)⟩).ix
            (integerSearch sse2 pattern image stride w h
              ⟨toUint (-1), truncToInt (warp.m02 - 8), truncToInt (warp.m12 - 8)⟩).iy
            (integerSearch sse2 pattern image stride w h
              ⟨toUint (-1), truncToInt (warp.m02 - 8), truncToInt (warp.m12 - 8)⟩).min).fx : ℚ) / 16
    ∧ (Track sse2 pattern image stride w h warp).1.m12
      = ((integerSearch sse2 pattern image stride w h
          ⟨toUint (-1), truncToInt (warp.m02 - 8), truncToInt (warp.m12 - 8)⟩).iy : ℚ) + 8
        + ((refine pattern image stride
            (integerSearch sse2 pattern image stride w h
              ⟨toUint (-1), truncToInt (warp.m02 - 8), truncToInt (warp.m12 - 8)⟩).ix
            (integerSearch sse2 pattern image stride w h
              ⟨toUint (-1), truncToInt (warp.m02 - 8), truncToInt (warp.m12 - 8)⟩).iy
            (integerSearch sse2 pattern image stride w h
              ⟨toUint (-1), truncToInt (warp.m02 - 8), truncToInt (warp.m12 - 8)⟩).min).fy : ℚ) / 16 := by
  unfold Track finalPosition
  simp only [kScale]
  generalize integerSearch sse2 pattern image stride w h
    ⟨toUint (-1), truncToInt (warp.m02 - 8), truncToInt (warp.m12 - 8)⟩ = s
  generalize refine pattern image stride s.ix s.iy s.min = r
  constructor
  · split_ifs <;> push_cast <;> ring
  · split_ifs <;> push_cast <;> ring

/-- C10: for every template, image, dimensions and input affine position,
`Track` leaves the four entries `m(0,0)`, `m(0,1)`, `m(1,0)`, `m(1,1)` of the
linear part equal to their input values; only the translation column
`m(0,2)`, `m(1,2)` is overwritten. -/
theorem Track_frame (sse2 : Bool) (pattern image : Ptr) (stride w h : Int) (warp : mat32) :
    (Track sse2 pattern image stride w h warp).1
      = { warp with
          m02 := (Track sse2 pattern image stride w h warp).1.m02
          m12 := (Track sse2 pattern image stride w h warp).1.m12 }
    ∧ (Track sse2 pattern image stride w h warp).1.m00 = warp.m00
    ∧ (Track sse2 pattern image stride w h warp).1.m01 = warp.m01
    ∧ (Track sse2 pattern image stride w h warp).1.m10 = warp.m10
    ∧ (Track sse2 pattern image stride w h warp).1.m11 = warp.m11 :=
  ⟨rfl, rfl, rfl, rfl, rfl⟩

/-- In the range `[8, 2^19)` the truncated translation minus 8 is a
position in `[0, 2^19 - 8)`. -/
theorem truncToInt_sub_eight_range (t : ℚ) (ht : 8 ≤ t ∧ t < 524288) :
    0 ≤ truncToInt (t - 8) ∧ truncToInt (t - 8) < 524280 := by
  have h0 : (0 : ℚ) ≤ t - 8 := by linarith [ht.1]
  rw [truncToInt_of_nonneg _ h0]
  constructor
  · exact Int.floor_nonneg.mpr h0
  · rw [Int.floor_lt]
    push_cast
    linarith [ht.2]

/-- C3 (amended): if the search region is empty (`w <= 16` or `h <= 16`)
and the input translation components lie in `[8, 2^19)` (where the `float`
subtraction, the conversion of `ix*16+fx` and the final sum are exact),
Phase 1 visits no offset and keeps the truncated input translation minus 8,
a position in `[0, 2^19)`, as integer position; `Track` still runs the
refinement from there and overwrites each translation component with that
truncated input component plus the refinement fraction in sixteenths, which
lies between -15/16 and 15/16. -/
theorem Track_empty_region (sse2 : Bool) (pattern image : Ptr) (stride w h : Int) (warp : mat32)
    (hx : 8 ≤ warp.m02 ∧ warp.m02 < 524288) (hy : 8 ≤ warp.m12 ∧ warp.m12 < 524288)
    (hempty : w ≤ 16 ∨ h ≤ 16) :
    integerSearch sse2 pattern image stride w h
        ⟨toUint (-1), truncToInt (warp.m02 - 8), truncToInt (warp.m12 - 8)⟩
      = ⟨toUint (-1), truncToInt (warp.m02 - 8), truncToInt (warp.m12 - 8)⟩
    ∧ (0 ≤ truncToInt (warp.m02 - 8) ∧ truncToInt (warp.m02 - 8) < 524280)
    ∧ (0 ≤ truncToInt (warp.m12 - 8) ∧ truncToInt (warp.m12 - 8) < 524280)
    ∧ (Track sse2 pattern image stride w h warp).1.m02
      = (truncToInt (warp.m02 - 8) : ℚ) + 8
        + ((refine pattern image stride (truncToInt (warp.m02 - 8)) (truncToInt (warp.m12 - 8))
            (toUint (-1))).fx : ℚ) / 16
    ∧ (Track sse2 pattern image stride w h warp).1.m12
      = (truncToInt (warp.m12 - 8) : ℚ) + 8
        + ((refine pattern image stride (truncToInt (warp.m02 - 8)) (truncToInt (warp.m12 - 8))
            (toUint (-1))).fy : ℚ) / 16
    ∧ (-15 ≤ (refine pattern image stride (truncToInt (warp.m02 - 8)) (truncToInt (warp.m12 - 8))
            (toUint (-1))).fx
      ∧ (refine pattern image stride (truncToInt (warp.m02 - 8)) (truncToInt (warp.m12 - 8))
            (toUint (-1))).fx ≤ 15)
    ∧ (-15 ≤ (refine pattern image stride (truncToInt (warp.m02 - 8)) (truncToInt (warp.m12 - 8))
            (toUint (-1))).fy
      ∧ (refine pattern image stride (truncToInt (warp.m02 - 8)) (truncToInt (warp.m12 - 8))
            (toUint (-1))).fy ≤ 15) := by
  have he := integerSearch_empty sse2 pattern image stride w h
    ⟨toUint (-1), truncToInt (warp.m02 - 8), truncToInt (warp.m12 - 8)⟩ hempty
  have ht := Track_translation sse2 pattern image stride w h warp
  rw [he] at ht
  have hb := refine_bound pattern image stride (truncToInt (warp.m02 - 8))
    (truncToInt (warp.m12 - 8)) (toUint (-1))
  exact ⟨he, truncToInt_sub_eight_range _ hx, truncToInt_sub_eight_range _ hy,
    ht.1, ht.2, hb.1, hb.2⟩

/-! ## Evaluations on concrete inputs -/

theorem spot_finalPosition :
    finalPosition true spotPattern spotImage 17 17 17 (translation 8 8) = ⟨0, 0, 0, 0⟩ := by
  decide!

theorem neg_finalPosition :
    finalPosition true negPattern negImage 17 17 17 (translation 8 8) = ⟨0, 0, 0, 0⟩ := by
  decide!

theorem step_integerSearch :
    integerSearch true stepPattern stepImage 17 17 17
      ⟨toUint (-1), truncToInt ((translation 8 8).m02 - 8), truncToInt ((translation 8 8).m12 - 8)⟩
      = ⟨0, 0, 0⟩ := by
  decide!

theorem step_finalPosition :
    finalPosition true stepPattern stepImage 17 17 17 (translation 8 8) = ⟨0, 0, 0, 0⟩ := by
  unfold finalPosition
  simp only [step_integerSearch, refine_min_zero]
  decide

theorem sample_flat (c : ubyte) (k stride x y u v : Int) (hk : k ≠ 0) :
    sample k (flat c) stride x y u v = (c.val : Int) := by
  simp only [sample, offset, flat, rd]
  have e : ((c.val : Int) * (k - u) + (c.val : Int) * u) * (k - v)
      + ((c.val : Int) * (k - u) + (c.val : Int) * u) * v = (c.val : Int) * (k * k) := by ring
  rw [e]
  exact Int.mul_tdiv_cancel _ (mul_ne_zero hk hk)

theorem windowValues_flat (c : ubyte) (stride : Int) (q : Position) :
    windowValues (flat c) stride q = fun _ _ => (c.val : Int) := by
  funext i j
  exact sample_flat c kScale stride _ _ _ _ (by decide)

theorem sampledSAD_flat_zero (stride sx sy u v : Int) :
    sampledSAD (flat 0) (flat 0) stride sx sy u v = 0 := by
  have hs : ∀ x y : Int, sample kScale (flat 0) stride x y u v = 0 :=
    fun x y => sample_flat 0 kScale stride x y u v (by decide)
  have hr : ∀ t : Int, rd (flat 0) t = 0 := fun _ => rfl
  unfold sampledSAD
  simp only [hs, hr, sub_zero, Int.natAbs_zero]
  rw [forLoop_zero_sixteen]
  exact iter_invariant (fun _ s => s = 0) 0 _ 16 0 rfl (fun t s _ hs => by
    subst hs
    rw [forLoop_zero_sixteen]
    exact iter_invariant (fun _ s => s = 0) 0 _ 16 0 rfl (fun t s _ hs => by subst hs; rfl))

theorem candidate_of_zero_distance (pattern image : Ptr) (stride ix iy fx fy k x y : Int)
    (r : Frac) (hD : ∀ sx sy u v, sampledSAD pattern image stride sx sy u v = 0)
    (hr : 0 < r.min) :
    candidate pattern image stride ix iy fx fy k x y r = ⟨0, fx + x, fy + y⟩ := by
  simp [candidate, hD, hr]

/-- When every sampled distance is 0, the first candidate of an iteration
entered with a positive minimum wins and no later one does. -/
theorem refineStep_of_zero_distance (pattern image : Ptr) (stride ix iy k fx fy : Int) (m : Nat)
    (hD : ∀ sx sy u v, sampledSAD pattern image stride sx sy u v = 0) (hm : 0 < m) :
    refineStep pattern image stride ix iy k ⟨m, fx, fy⟩ = ⟨0, fx * 2 + -1, fy * 2 + -1⟩ := by
  have h3 : ((2 : Int) - (-1)).toNat = 3 := rfl
  simp only [refineStep, forLoop, h3, iter]
  rw [candidate_of_zero_distance _ _ _ _ _ _ _ _ _ _ ⟨m, fx * 2, fy * 2⟩ hD hm]
  simp only [candidate_min_zero, Nat.cast_zero, add_zero]


theorem iter_zero {σ : Type} (lo : Int) (body : Int → σ → σ) (s : σ) :
    iter lo 0 body s = s := rfl

theorem refine_of_zero_distance (pattern image : Ptr) (stride ix iy : Int) (m : Nat)
    (hD : ∀ sx sy u v, sampledSAD pattern image stride sx sy u v = 0) (hm : 0 < m) :
    refine pattern image stride ix iy m = ⟨0, -8, -8⟩ := by
  have h4 : ((kPrecision + 1 : Int) - 1).toNat = 4 := rfl
  unfold refine forLoop
  rw [h4, iter_succ, iter_succ, iter_succ, iter_succ, iter_zero,
    refineStep_of_zero_distance _ _ _ _ _ _ _ _ _ hD hm, refineStep_min_zero,
    refineStep_min_zero, refineStep_min_zero]
  norm_num

theorem zero_refine :
    refine (flat 0) (flat 0) 16 12 12 (toUint (-1)) = ⟨0, -8, -8⟩ :=
  refine_of_zero_distance (flat 0) (flat 0) 16 12 12 (toUint (-1))
    (sampledSAD_flat_zero 16) (by decide)

/-! ## The confidence returned by `Track` -/

/-- C1 (as stated) fails: on `spotPattern` against `spotImage` the position
stays at the window of offset `(0, 0)`, every variance term is non-zero, the
covariance numerator does not wrap, and the returned confidence is
`168 / sqrt 27924`, which is greater than 1. -/
theorem Track_confidence_above_one :
    (Track true spotPattern spotImage 17 17 17 (translation 8 8)).2 = .quot 168 27924
    ∧ (Track true spotPattern spotImage 17 17 17 (translation 8 8)).2.HasValue
        ((168 : ℝ) / Real.sqrt 27924)
    ∧ (1 : ℝ) < (168 : ℝ) / Real.sqrt 27924 := by
  have hq : (Track true spotPattern spotImage 17 17 17 (translation 8 8)).2 = .quot 168 27924 := by
    rw [Track_confidence, spot_finalPosition]
    decide!
  refine ⟨hq, ?_, ?_⟩
  · rw [hq]
    show (168 : ℝ) / Real.sqrt 27924 = ((168 : Nat) : ℝ) / Real.sqrt ((27924 : Nat) : ℝ)
    norm_num
  · have hpos : (0 : ℝ) < Real.sqrt 27924 := Real.sqrt_pos.mpr (by norm_num)
    have hlt : Real.sqrt 27924 < 168 := by
      rw [Real.sqrt_lt' (by norm_num)]
      norm_num
    exact (one_lt_div hpos).mpr hlt

/-- C4: on `negPattern`, whose truncated variance term is 64, against
`negImage` the final window is the photometric negative of the template and
`Track` returns `4294967232 / sqrt 4096 = 67108863`, where the correlation
coefficient is -1: the `uint` numerator `sXY-sX*sY` wrapped from -64. -/
theorem Track_negative_window :
    (∀ i j : Fin 16,
      windowValues negImage 17 (finalPosition true negPattern negImage 17 17 17 (translation 8 8))
        (i.val : Int) (j.val : Int) = 255 - patternValues negPattern (i.val : Int) (j.val : Int))
    ∧ templateVar negPattern = 64
    ∧ (Track true negPattern negImage 17 17 17 (translation 8 8)).2 = .quot 4294967232 4096
    ∧ (Track true negPattern negImage 17 17 17 (translation 8 8)).2.HasValue 67108863 := by
  have hq : (Track true negPattern negImage 17 17 17 (translation 8 8)).2
      = .quot 4294967232 4096 := by
    rw [Track_confidence, neg_finalPosition]
    decide!
  refine ⟨?_, by decide!, hq, ?_⟩
  · rw [neg_finalPosition]
    decide!
  · rw [hq]
    show (67108863 : ℝ) = ((4294967232 : Nat) : ℝ) / Real.sqrt ((4096 : Nat) : ℝ)
    have e : ((4096 : Nat) : ℝ) = 64 * 64 := by norm_num
    rw [e, Real.sqrt_mul_self (by norm_num)]
    norm_num

/-- C5 (as stated) fails: against the flat image of bytes 255 the window
variance term is zero, yet for `dotPattern` the covariance numerator is 254
and `Track` returns `254 / 0`, plus infinity, not NaN. -/
theorem Track_flat_window_infinite :
    (accumulate (patternValues dotPattern)
      (windowValues (flat 255) 17
        (finalPosition true dotPattern (flat 255) 17 17 17 (translation 8 8)))).divN.varY = 0
    ∧ (accumulate (patternValues dotPattern)
      (windowValues (flat 255) 17
        (finalPosition true dotPattern (flat 255) 17 17 17 (translation 8 8)))).divN.cov = 254
    ∧ (Track true dotPattern (flat 255) 17 17 17 (translation 8 8)).2 = .inf
    ∧ (Track true dotPattern (flat 255) 17 17 17 (translation 8 8)).2 ≠ .nan := by
  have hq : (Track true dotPattern (flat 255) 17 17 17 (translation 8 8)).2 = .inf := by
    rw [Track_confidence, windowValues_flat]
    decide!
  refine ⟨?_, ?_, hq, ?_⟩
  · rw [windowValues_flat]; decide!
  · rw [windowValues_flat]; decide!
  · rw [hq]; decide

/-- C5 (amended): for every template and final matched window such that
either integer-truncated variance term is zero, the radicand is zero and the
confidence returned by `Track` is not a number: it is NaN when the
covariance numerator `sXY-sX*sY` is zero as well, and plus infinity
otherwise. -/
theorem Track_zero_variance (sse2 : Bool) (pattern image : Ptr) (stride w h : Int)
    (warp : mat32)
    (hz : (accumulate (patternValues pattern)
        (windowValues image stride (finalPosition sse2 pattern image stride w h warp))).divN.varX = 0
      ∨ (accumulate (patternValues pattern)
        (windowValues image stride (finalPosition sse2 pattern image stride w h warp))).divN.varY
          = 0) :
    umul (accumulate (patternValues pattern)
        (windowValues image stride (finalPosition sse2 pattern image stride w h warp))).divN.varX
      (accumulate (patternValues pattern)
        (windowValues image stride (finalPosition sse2 pattern image stride w h warp))).divN.varY = 0
    ∧ ((accumulate (patternValues pattern)
        (windowValues image stride (finalPosition sse2 pattern image stride w h warp))).divN.cov = 0
      → (Track sse2 pattern image stride w h warp).2 = .nan)
    ∧ ((accumulate (patternValues pattern)
        (windowValues image stride (finalPosition sse2 pattern image stride w h warp))).divN.cov ≠ 0
      → (Track sse2 pattern image stride w h warp).2 = .inf) := by
  rw [Track_confidence]
  unfold correlation
  simp only []
  generalize (accumulate (patternValues pattern)
    (windowValues image stride (finalPosition sse2 pattern image stride w h warp))).divN = s at hz ⊢
  have hr : umul s.varX s.varY = 0 := by
    rcases hz with h0 | h0 <;> simp [umul, h0]
  refine ⟨hr, fun hc => ?_, fun hc => ?_⟩
  · simp [fdivSqrt, hr, hc]
  · simp [fdivSqrt, hr, hc]

theorem Track_zero_variance_witness :
    (Track true (flat 255) (flat 255) 17 17 17 (translation 8 8)).2 = .nan := by
  have hY : (accumulate (patternValues (flat 255))
      (windowValues (flat 255) 17
        (finalPosition true (flat 255) (flat 255) 17 17 17 (translation 8 8)))).divN.varY = 0 := by
    rw [windowValues_flat]; decide!
  have hc : (accumulate (patternValues (flat 255))
      (windowValues (flat 255) 17
        (finalPosition true (flat 255) (flat 255) 17 17 17 (translation 8 8)))).divN.cov = 0 := by
    rw [windowValues_flat]; decide!
  exact (Track_zero_variance true (flat 255) (flat 255) 17 17 17 (translation 8 8)
    (Or.inr hY)).2.1 hc

/-! ## The position returned by `Track` -/

/-- C2 (as stated) fails: with `w = h = 17` the offset `(1, 0)` satisfies
`0 <= x <= w-16` and `0 <= y <= h-16` and holds an exact duplicate of the
template (distance 0), but Phase 1 scans `x < w-16` only and ends at offset
`(0, 0)` with distance 3952. -/
theorem integerSearch_skips_last_offset :
    ((0 : Int) ≤ 1 ∧ (1 : Int) ≤ 17 - 16 ∧ (0 : Int) ≤ 0 ∧ (0 : Int) ≤ 17 - 16)
    ∧ SAD true stepPattern (offset shiftedImage (0 * 17 + 1)) 17 = 0
    ∧ integerSearch true stepPattern shiftedImage 17 17 17 ⟨toUint (-1), 0, 0⟩ = ⟨3952, 0, 0⟩ := by
  refine ⟨by decide, ?_, ?_⟩
  · decide!
  · decide!

/-- C2 (amended): for every template and every search image of width
`w > 16` and height `h > 16`, the integer position `(ix, iy)` chosen by
Phase 1 of `Track` lies in the scanned range `0 <= ix < w-16`,
`0 <= iy < h-16`, attains the minimum `SAD` distance over every integer
offset `(x, y)` with `0 <= x < w-16` and `0 <= y < h-16`, and among the
offsets attaining that minimum it is the earliest in row-major scan order;
in particular, if the template is exactly duplicated at some offset of that
range, Phase 1 ends with distance 0. -/
theorem integerSearch_first_minimum (sse2 : Bool) (pattern image : Ptr)
    (stride w h ix0 iy0 : Int) (hw : 16 < w) (hh : 16 < h) :
    (0 ≤ (integerSearch sse2 pattern image stride w h ⟨toUint (-1), ix0, iy0⟩).ix
      ∧ (integerSearch sse2 pattern image stride w h ⟨toUint (-1), ix0, iy0⟩).ix < w - 16
      ∧ 0 ≤ (integerSearch sse2 pattern image stride w h ⟨toUint (-1), ix0, iy0⟩).iy
      ∧ (integerSearch sse2 pattern image stride w h ⟨toUint (-1), ix0, iy0⟩).iy < h - 16)
    ∧ (integerSearch sse2 pattern image stride w h ⟨toUint (-1), ix0, iy0⟩).min
        = SAD sse2 pattern (offset image
            ((integerSearch sse2 pattern image stride w h ⟨toUint (-1), ix0, iy0⟩).iy * stride
              + (integerSearch sse2 pattern image stride w h ⟨toUint (-1), ix0, iy0⟩).ix)) stride
    ∧ (∀ x y : Int, 0 ≤ x → x < w - 16 → 0 ≤ y → y < h - 16 →
        (integerSearch sse2 pattern image stride w h ⟨toUint (-1), ix0, iy0⟩).min
            ≤ SAD sse2 pattern (offset image (y * stride + x)) stride
        ∧ (SAD sse2 pattern (offset image (y * stride + x)) stride
              = (integerSearch sse2 pattern image stride w h ⟨toUint (-1), ix0, iy0⟩).min →
            (integerSearch sse2 pattern image stride w h ⟨toUint (-1), ix0, iy0⟩).iy < y
            ∨ ((integerSearch sse2 pattern image stride w h ⟨toUint (-1), ix0, iy0⟩).iy = y
              ∧ (integerSearch sse2 pattern image stride w h ⟨toUint (-1), ix0, iy0⟩).ix ≤ x)))
    ∧ (∀ x y : Int, 0 ≤ x → x < w - 16 → 0 ≤ y → y < h - 16 →
        (∀ i j : Fin 16, pattern ((i.val : Int) * 16 + (j.val : Int))
          = image ((y + (i.val : Int)) * stride + (x + (j.val : Int)))) →
        (integerSearch sse2 pattern image stride w h ⟨toUint (-1), ix0, iy0⟩).min = 0) := by
  obtain ⟨h1, h2, h3⟩ := integerSearch_spec sse2 pattern image stride w h ix0 iy0 hw hh
  refine ⟨h1, h2, h3, ?_⟩
  intro x y hx0 hx hy0 hy hdup
  have hle := (h3 x y hx0 hx hy0 hy).1
  rw [SAD_eq_zero_of_dup sse2 pattern image stride x y hdup] at hle
  omega

theorem integerSearch_first_minimum_witness :
    ((16 : Int) < 17 ∧ (16 : Int) < 17)
    ∧ (0 ≤ (integerSearch true stepPattern stepImage 17 17 17 ⟨toUint (-1), 5, 5⟩).ix
      ∧ (integerSearch true stepPattern stepImage 17 17 17 ⟨toUint (-1), 5, 5⟩).ix < 17 - 16
      ∧ 0 ≤ (integerSearch true stepPattern stepImage 17 17 17 ⟨toUint (-1), 5, 5⟩).iy
      ∧ (integerSearch true stepPattern stepImage 17 17 17 ⟨toUint (-1), 5, 5⟩).iy < 17 - 16) :=
  ⟨⟨by decide, by decide⟩,
    (integerSearch_first_minimum true stepPattern stepImage 17 17 17 5 5 (by decide) (by decide)).1⟩

/-- C3 (as stated) fails: with an empty search region (`w = h = 16`), the
flat template and image of bytes 0 and the input translation `(20, 20)`,
`Track` writes back the translation `(39/2, 39/2)`. -/
theorem Track_empty_region_moves :
    ((16 : Int) ≤ 16 ∨ (16 : Int) ≤ 16)
    ∧ (Track true (flat 0) (flat 0) 16 16 16 (translation 20 20)).1.m02 = 39 / 2
    ∧ (Track true (flat 0) (flat 0) 16 16 16 (translation 20 20)).1.m12 = 39 / 2
    ∧ (Track true (flat 0) (flat 0) 16 16 16 (translation 20 20)).1.m02
        ≠ (translation 20 20).m02 := by
  have ht : truncToInt ((20 : ℚ) - 8) = 12 := by
    have e : (20 : ℚ) - 8 = ((12 : Int) : ℚ) := by norm_num
    rw [e]
    simp [truncToInt]
  have he := integerSearch_empty true (flat 0) (flat 0) 16 16 16
    ⟨toUint (-1), truncToInt ((translation 20 20).m02 - 8), truncToInt ((translation 20 20).m12 - 8)⟩
    (Or.inl (le_refl _))
  obtain ⟨h02, h12⟩ := Track_translation true (flat 0) (flat 0) 16 16 16 (translation 20 20)
  rw [he] at h02 h12
  simp only [translation, ht, zero_refine] at h02 h12
  have e02 : (Track true (flat 0) (flat 0) 16 16 16 (translation 20 20)).1.m02 = 39 / 2 := by
    rw [translation, h02]; norm_num
  have e12 : (Track true (flat 0) (flat 0) 16 16 16 (translation 20 20)).1.m12 = 39 / 2 := by
    rw [translation, h12]; norm_num
  refine ⟨Or.inl (le_refl _), e02, e12, ?_⟩
  rw [e02]
  simp only [translation]
  norm_num

theorem Track_empty_region_witness :
    ((8 ≤ (translation 20 20).m02 ∧ (translation 20 20).m02 < 524288)
      ∧ (8 ≤ (translation 20 20).m12 ∧ (translation 20 20).m12 < 524288)
      ∧ ((16 : Int) ≤ 16 ∨ (17 : Int) ≤ 16))
    ∧ integerSearch true stepPattern stepImage 17 16 17
        ⟨toUint (-1), truncToInt ((translation 20 20).m02 - 8),
          truncToInt ((translation 20 20).m12 - 8)⟩
      = ⟨toUint (-1), truncToInt ((translation 20 20).m02 - 8),
          truncToInt ((translation 20 20).m12 - 8)⟩ :=
  ⟨⟨by norm_num [translation], by norm_num [translation], Or.inl (le_refl _)⟩,
    (Track_empty_region true stepPattern stepImage 17 16 17 (translation 20 20)
      (by norm_num [translation]) (by norm_num [translation]) (Or.inl (le_refl _))).1⟩

/-! ## Instances of the conditional statements -/

theorem SamplePattern_identity_crop_witness :
    (((8 : Int) ≤ 9 ∧ (9 : Int) + 7 < 8388608) ∧ ((8 : Int) ≤ 10 ∧ (10 : Int) + 7 < 8388608))
    ∧ SamplePattern LRound.sse stepImage 17 (translation 9 10) (flat 0)
        ((((3 : Fin 16)).val : Int) * 16 + (((5 : Fin 16)).val : Int))
      = stepImage ((10 - 8 + (((3 : Fin 16)).val : Int)) * 17
          + (9 - 8 + (((5 : Fin 16)).val : Int))) :=
  ⟨⟨by decide, by decide⟩,
    SamplePattern_identity_crop LRound.sse stepImage 17 (translation 9 10) 9 10
      ⟨rfl, rfl, rfl, rfl⟩ ⟨by norm_num [translation], by norm_num [translation]⟩
      (by decide) (by decide) (flat 0) 3 5⟩

theorem SAD_SamplePattern_self_witness :
    (((8 : Int) ≤ 9 ∧ (9 : Int) + 7 < 8388608) ∧ ((8 : Int) ≤ 10 ∧ (10 : Int) + 7 < 8388608))
    ∧ SAD false (SamplePattern LRound.libm stepImage 17 (translation 9 10) (flat 0))
        (offset stepImage ((10 - 8) * 17 + (9 - 8))) 17 = 0 :=
  ⟨⟨by decide, by decide⟩,
    SAD_SamplePattern_self false LRound.libm stepImage 17 (translation 9 10) 9 10
      ⟨rfl, rfl, rfl, rfl⟩ ⟨by norm_num [translation], by norm_num [translation]⟩
      (by decide) (by decide) (flat 0)⟩

theorem Track_self_match_witness :
    templateVar stepPattern ≠ 0
    ∧ (Track true stepPattern stepImage 17 17 17 (translation 8 8)).2 = .quot 64 4096
    ∧ (Track true stepPattern stepImage 17 17 17 (translation 8 8)).2.HasValue 1 := by
  have hv : templateVar stepPattern = 64 := by decide!
  have hwin : ∀ i j : Fin 16,
      windowValues stepImage 17
        (finalPosition true stepPattern stepImage 17 17 17 (translation 8 8))
        (i.val : Int) (j.val : Int) = patternValues stepPattern (i.val : Int) (j.val : Int) := by
    rw [step_finalPosition]
    decide!
  have hne : templateVar stepPattern ≠ 0 := by rw [hv]; decide
  obtain ⟨_, _, _, _, _, h6, _⟩ :=
    Track_self_match true stepPattern stepImage 17 17 17 (translation 8 8) hwin hne
  rw [hv] at h6
  have e : (64 : Nat) * 64 = 4096 := rfl
  rw [e] at h6
  refine ⟨hne, h6, ?_⟩
  rw [h6]
  exact (fdivSqrt_self 64 (by decide) (by decide)).2

/-! ## `SamplePattern` beyond the range of the fixed-point coordinate -/

/-- The distance is at least the absolute difference of the first samples. -/
theorem sumAbsDiff_ge_first (pattern image : Ptr) (stride : Int) :
    Int.natAbs (rd pattern 0 - rd image 0) ≤ sumAbsDiff pattern image stride := by
  unfold sumAbsDiff
  have h0 : (0 : Nat) ∈ range 16 := Finset.mem_range.mpr (by norm_num)
  have h1 := Finset.single_le_sum (f := fun i : Nat => ∑ j in range 16,
      Int.natAbs (rd pattern ((i : Int) * 16 + (j : Int)) - rd image ((i : Int) * stride + (j : Int))))
    (fun _ _ => Nat.zero_le _) h0
  have h2 := Finset.single_le_sum (f := fun j : Nat =>
      Int.natAbs (rd pattern (((0 : Nat) : Int) * 16 + (j : Int))
        - rd image (((0 : Nat) : Int) * stride + (j : Int))))
    (fun _ _ => Nat.zero_le _) h0
  simp only [Nat.cast_zero, zero_mul, zero_add] at h1 h2
  exact le_trans h2 h1

/-- C7 (as stated) fails: at the integer translation `(8388616, 8)` the
fixed-point coordinate of the first sample is `8388608 * 256 = 2^31`, which
every build of `lround` returns as `INT_MIN`; `SamplePattern` then reads
`image[-8388608]`, in front of the buffer, and writes 0 where the crop holds
`image[8388608] = 255`. -/
theorem SamplePattern_crop_overflow :
    ((8 : Int) ≤ 8388616 ∧ (8 : Int) ≤ 8)
    ∧ lround LRound.sse (8388608 * 256) = -2147483648
    ∧ SamplePattern LRound.sse halfImage 8388640 (translation 8388616 8) (flat 7)
        ((((0 : Fin 16)).val : Int) * 16 + (((0 : Fin 16)).val : Int)) = 0
    ∧ SamplePattern LRound.msvc halfImage 8388640 (translation 8388616 8) (flat 7)
        ((((0 : Fin 16)).val : Int) * 16 + (((0 : Fin 16)).val : Int)) = 0
    ∧ SamplePattern LRound.libm halfImage 8388640 (translation 8388616 8) (flat 7)
        ((((0 : Fin 16)).val : Int) * 16 + (((0 : Fin 16)).val : Int)) = 0
    ∧ halfImage ((8 - 8 + (((0 : Fin 16)).val : Int)) * 8388640
        + (8388616 - 8 + (((0 : Fin 16)).val : Int))) = 255 := by
  refine ⟨by decide, ?_, ?_, ?_, ?_, ?_⟩ <;> decide!

theorem SamplePattern_overflow_first (b : LRound) :
    rd (SamplePattern b halfImage 8388640 (translation 8388616 8) (flat 7)) 0 = 0 := by
  cases b <;> decide!

/-- C9 (as stated) fails: at the integer translation `(8388616, 8)` the
template that `SamplePattern` captures starts with `image[-8388608] = 0`
while the window whose top-left pixel is `(8388608, 0)` starts with 255, so
the `SAD` distance between them is at least 255 in either build. -/
theorem SAD_SamplePattern_overflow :
    ((8 : Int) ≤ 8388616 ∧ (8 : Int) ≤ 8)
    ∧ 255 ≤ SAD true (SamplePattern LRound.sse halfImage 8388640 (translation 8388616 8) (flat 7))
        (offset halfImage ((8 - 8) * 8388640 + (8388616 - 8))) 8388640
    ∧ 255 ≤ SAD false (SamplePattern LRound.sse halfImage 8388640 (translation 8388616 8) (flat 7))
        (offset halfImage ((8 - 8) * 8388640 + (8388616 - 8))) 8388640
    ∧ SAD true (SamplePattern LRound.sse halfImage 8388640 (translation 8388616 8) (flat 7))
        (offset halfImage ((8 - 8) * 8388640 + (8388616 - 8))) 8388640 ≠ 0 := by
  have hw : rd (offset halfImage ((8 - 8) * 8388640 + (8388616 - 8))) 0 = 255 := by decide!
  have key : ∀ sse2 : Bool,
      255 ≤ SAD sse2 (SamplePattern LRound.sse halfImage 8388640 (translation 8388616 8) (flat 7))
        (offset halfImage ((8 - 8) * 8388640 + (8388616 - 8))) 8388640 := by
    intro sse2
    rw [SAD_eq]
    have h := sumAbsDiff_ge_first
      (SamplePattern LRound.sse halfImage 8388640 (translation 8388616 8) (flat 7))
      (offset halfImage ((8 - 8) * 8388640 + (8388616 - 8))) 8388640
    rw [SamplePattern_overflow_first LRound.sse, hw] at h
    exact h
  have k1 := key true
  exact ⟨by decide, k1, key false, by omega⟩

/-! ## The correlation stage does not wrap on byte values -/

theorem divN_swap (X Y : Int → Int → Int) :
    (accumulate X Y).divN.sY = (accumulate Y X).divN.sX
    ∧ (accumulate X Y).divN.sYY = (accumulate Y X).divN.sXX := by
  have a1 := accumulate_sY X Y
  have a2 := accumulate_sX Y X
  have a3 := accumulate_sYY X Y
  have a4 := accumulate_sXX Y X
  have f1 : (accumulate X Y).sY = (accumulate Y X).sX := by omega
  have f2 : (accumulate X Y).sYY = (accumulate Y X).sXX := by omega
  simp only [Sums.divN, f1, f2, and_self]

theorem varY_swap (X Y : Int → Int → Int) :
    (accumulate X Y).divN.varY = (accumulate Y X).divN.varX := by
  obtain ⟨f1, f2⟩ := divN_swap X Y
  simp only [Sums.varY, Sums.varX, f1, f2]

theorem varY_byte (X Y : Int → Int → Int) (hX : IsByteGrid X) (hY : IsByteGrid Y) :
    (((accumulate X Y).divN.varY : Nat) : Int)
      = sum2 (fun i j => Y i j * Y i j) / 256 - (sum2 Y / 256) * (sum2 Y / 256)
    ∧ (accumulate X Y).divN.varY ≤ 65025 := by
  rw [varY_swap]
  exact varX_byte Y X hY hX

theorem accumulate_byte (X Y : Int → Int → Int) (hX : IsByteGrid X) (hY : IsByteGrid Y) :
    (((accumulate X Y).sX : Nat) : Int) = sum2 X
    ∧ (((accumulate X Y).sY : Nat) : Int) = sum2 Y
    ∧ (((accumulate X Y).sXX : Nat) : Int) = sum2 (fun i j => X i j * X i j)
    ∧ (((accumulate X Y).sYY : Nat) : Int) = sum2 (fun i j => Y i j * Y i j)
    ∧ (((accumulate X Y).sXY : Nat) : Int) = sum2 (fun i j => X i j * Y i j) := by
  have a1 := accumulate_sX X Y
  have a2 := accumulate_sY X Y
  have a3 := accumulate_sXX X Y
  have a4 := accumulate_sYY X Y
  have a5 := accumulate_sXY X Y
  have b1 := sum2_byte_bounds X hX
  have b2 := sum2_byte_bounds Y hY
  have b3 := sum2_mul_byte_bounds X X hX hX
  have b4 := sum2_mul_byte_bounds Y Y hY hY
  have b5 := sum2_mul_byte_bounds X Y hX hY
  refine ⟨?_, ?_, ?_, ?_, ?_⟩ <;> omega

/-- C13: for every pair of 256-sample arrays with values in 0..255, the five
32-bit accumulators of the correlation stage of `Track` hold the
mathematical sums (none overflows), the truncated means satisfy
`floor(sum(X^2)/256) >= floor(sum(X)/256)^2` and likewise for `Y`, so the
unsigned subtractions that form the two variance terms do not wrap, and the
product of the two variance terms is below `2^32`: the argument of the
square root is the mathematical product of two non-negative integers. -/
theorem correlation_variance_no_wrap (X Y : Int → Int → Int)
    (hX : IsByteGrid X) (hY : IsByteGrid Y) :
    ((((accumulate X Y).sX : Nat) : Int) = sum2 X
      ∧ (((accumulate X Y).sY : Nat) : Int) = sum2 Y
      ∧ (((accumulate X Y).sXX : Nat) : Int) = sum2 (fun i j => X i j * X i j)
      ∧ (((accumulate X Y).sYY : Nat) : Int) = sum2 (fun i j => Y i j * Y i j)
      ∧ (((accumulate X Y).sXY : Nat) : Int) = sum2 (fun i j => X i j * Y i j))
    ∧ ((sum2 X / 256) * (sum2 X / 256) ≤ sum2 (fun i j => X i j * X i j) / 256
      ∧ (sum2 Y / 256) * (sum2 Y / 256) ≤ sum2 (fun i j => Y i j * Y i j) / 256)
    ∧ ((accumulate X Y).divN.sX * (accumulate X Y).divN.sX ≤ (accumulate X Y).divN.sXX
      ∧ (accumulate X Y).divN.sY * (accumulate X Y).divN.sY ≤ (accumulate X Y).divN.sYY)
    ∧ ((accumulate X Y).divN.varX
          = (accumulate X Y).divN.sXX - (accumulate X Y).divN.sX * (accumulate X Y).divN.sX
      ∧ (accumulate X Y).divN.varY
          = (accumulate X Y).divN.sYY - (accumulate X Y).divN.sY * (accumulate X Y).divN.sY)
    ∧ (accumulate X Y).divN.varX * (accumulate X Y).divN.varY < 4294967296
    ∧ umul (accumulate X Y).divN.varX (accumulate X Y).divN.varY
        = (accumulate X Y).divN.varX * (accumulate X Y).divN.varY := by
  have hacc := accumulate_byte X Y hX hY
  obtain ⟨d1, d2, d3, d4, _⟩ := divN_byte X Y hX hY
  obtain ⟨vx, vxle⟩ := varX_byte X Y hX hY
  obtain ⟨vy, vyle⟩ := varY_byte X Y hX hY
  have bX := sum2_byte_bounds X hX
  have bY := sum2_byte_bounds Y hY
  have csX := sq_div_le_div _ _ bX.1 (sum2_sq_le X)
  have csY := sq_div_le_div _ _ bY.1 (sum2_sq_le Y)
  have nX : (accumulate X Y).divN.sX * (accumulate X Y).divN.sX ≤ (accumulate X Y).divN.sXX := by
    have : (((accumulate X Y).divN.sX * (accumulate X Y).divN.sX : Nat) : Int)
        ≤ (((accumulate X Y).divN.sXX : Nat) : Int) := by
      rw [Nat.cast_mul, d1, d3]; exact csX
    exact_mod_cast this
  have nY : (accumulate X Y).divN.sY * (accumulate X Y).divN.sY ≤ (accumulate X Y).divN.sYY := by
    have : (((accumulate X Y).divN.sY * (accumulate X Y).divN.sY : Nat) : Int)
        ≤ (((accumulate X Y).divN.sYY : Nat) : Int) := by
      rw [Nat.cast_mul, d2, d4]; exact csY
    exact_mod_cast this
  have eX : (accumulate X Y).divN.varX
      = (accumulate X Y).divN.sXX - (accumulate X Y).divN.sX * (accumulate X Y).divN.sX := by
    have : (((accumulate X Y).divN.varX : Nat) : Int)
        = (((accumulate X Y).divN.sXX - (accumulate X Y).divN.sX * (accumulate X Y).divN.sX
            : Nat) : Int) := by
      rw [Nat.cast_sub nX, Nat.cast_mul, d1, d3]; exact vx
    exact_mod_cast this
  have eY : (accumulate X Y).divN.varY
      = (accumulate X Y).divN.sYY - (accumulate X Y).divN.sY * (accumulate X Y).divN.sY := by
    have : (((accumulate X Y).divN.varY : Nat) : Int)
        = (((accumulate X Y).divN.sYY - (accumulate X Y).divN.sY * (accumulate X Y).divN.sY
            : Nat) : Int) := by
      rw [Nat.cast_sub nY, Nat.cast_mul, d2, d4]; exact vy
    exact_mod_cast this
  have hprod : (accumulate X Y).divN.varX * (accumulate X Y).divN.varY < 4294967296 := by
    calc (accumulate X Y).divN.varX * (accumulate X Y).divN.varY
        ≤ 65025 * 65025 := Nat.mul_le_mul vxle vyle
      _ < 4294967296 := by norm_num
  exact ⟨hacc, ⟨csX, csY⟩, ⟨nX, nY⟩, ⟨eX, eY⟩, hprod, Nat.mod_eq_of_lt hprod⟩

/-! ## Phase 2: the fractions stay in range -/

theorem candidate_eq (pattern image : Ptr) (stride ix iy fx fy k x y : Int) (r : Frac) :
    candidate pattern image stride ix iy (fx * 2) (fy * 2) k x y r
      = if candidateSAD pattern image stride ix iy fx fy k x y < r.min
        then ⟨candidateSAD pattern image stride ix iy fx fy k x y, fx * 2 + x, fy * 2 + y⟩
        else r := by
  simp only [candidate, candidateSAD, shifted, carryFrac, carryInt]

/-- After `n` iterations the fractions are at most `2^n - 1` in absolute value. -/
theorem refineState_bound (pattern image : Ptr) (stride ix iy : Int) (min : Nat) (n : Nat) :
    (-((2 : Int) ^ n - 1) ≤ (refineState pattern image stride ix iy min n).fx
      ∧ (refineState pattern image stride ix iy min n).fx ≤ (2 : Int) ^ n - 1)
    ∧ (-((2 : Int) ^ n - 1) ≤ (refineState pattern image stride ix iy min n).fy
      ∧ (refineState pattern image stride ix iy min n).fy ≤ (2 : Int) ^ n - 1) := by
  unfold refineState
  exact iter_invariant (fun n (r : Frac) =>
    (-((2 : Int) ^ n - 1) ≤ r.fx ∧ r.fx ≤ (2 : Int) ^ n - 1)
    ∧ (-((2 : Int) ^ n - 1) ≤ r.fy ∧ r.fy ≤ (2 : Int) ^ n - 1))
    1 (refineStep pattern image stride ix iy) n ⟨min, 0, 0⟩ (by simp) (by
      intro t r _ hr
      have hs := refineStep_near pattern image stride ix iy (1 + (t : Int)) r
      have hp : (2 : Int) ^ (t + 1) = 2 * 2 ^ t := by ring
      rw [hp]
      generalize (2 : Int) ^ t = P at hr ⊢
      omega)

/-- The shifted fraction of a candidate of iteration `1 + n` is below 16 in
absolute value, so one carry brings it into `[0, 16)`. -/
theorem carryFrac_shifted_range (f : Int) (n : Fin 4) (d : Fin 3)
    (hf : -((2 : Int) ^ n.val - 1) ≤ f ∧ f ≤ (2 : Int) ^ n.val - 1) :
    0 ≤ carryFrac (shifted f ((d.val : Int) - 1) (1 + (n.val : Int)))
    ∧ carryFrac (shifted f ((d.val : Int) - 1) (1 + (n.val : Int))) < 16 := by
  have hd := d.isLt
  unfold carryFrac shifted kScale kPrecision
  have h0 : Int.toNat 0 = 0 := rfl
  have h1 : Int.toNat 1 = 1 := rfl
  have h2 : Int.toNat 2 = 2 := rfl
  have h3 : Int.toNat 3 = 3 := rfl
  fin_cases n <;> simp only [] at hf ⊢ <;> norm_num [h0, h1, h2, h3] at hf ⊢ <;>
    split_ifs <;> omega

/-- The fractions of the final position lie in `[0, 16)` after the borrow. -/
theorem finalPosition_frac_range (sse2 : Bool) (pattern image : Ptr) (stride w h : Int)
    (warp : mat32) :
    (0 ≤ (finalPosition sse2 pattern image stride w h warp).fx
      ∧ (finalPosition sse2 pattern image stride w h warp).fx < 16)
    ∧ (0 ≤ (finalPosition sse2 pattern image stride w h warp).fy
      ∧ (finalPosition sse2 pattern image stride w h warp).fy < 16) := by
  unfold finalPosition
  simp only [kScale]
  generalize integerSearch sse2 pattern image stride w h
    ⟨toUint (-1), truncToInt (warp.m02 - 8), truncToInt (warp.m12 - 8)⟩ = s
  have hb := refine_bound pattern image stride s.ix s.iy s.min
  generalize refine pattern image stride s.ix s.iy s.min = r at hb
  constructor <;> split_ifs <;> omega

/-- C11: in Phase 2 of `Track`, for every input, every iteration `k = 1 + n`
(`n = 0..3`) and every candidate offset `(dx - 1, dy - 1)` in `{-1,0,1}^2`,
the fractional coordinates `(u, v)` that `candidate` passes to the bilinear
sampler after the negative-carry step satisfy `0 <= u < 16` and
`0 <= v < 16`; and after the final normalisation the fractions `(fx, fy)`
of the position written back satisfy `0 <= fx < 16` and `0 <= fy < 16`. -/
theorem refine_fractions_in_range (sse2 : Bool) (pattern image : Ptr) (stride w h : Int)
    (warp : mat32) (ix iy : Int) (min : Nat) (n : Fin 4) (dx dy : Fin 3) :
    (∀ r : Frac,
      candidate pattern image stride ix iy
          ((refineState pattern image stride ix iy min n.val).fx * 2)
          ((refineState pattern image stride ix iy min n.val).fy * 2)
          (1 + (n.val : Int)) ((dx.val : Int) - 1) ((dy.val : Int) - 1) r
        = if sampledSAD pattern image stride
              (carryInt (shifted (refineState pattern image stride ix iy min n.val).fx
                ((dx.val : Int) - 1) (1 + (n.val : Int))) ix)
              (carryInt (shifted (refineState pattern image stride ix iy min n.val).fy
                ((dy.val : Int) - 1) (1 + (n.val : Int))) iy)
              (carryFrac (shifted (refineState pattern image stride ix iy min n.val).fx
                ((dx.val : Int) - 1) (1 + (n.val : Int))))
              (carryFrac (shifted (refineState pattern image stride ix iy min n.val).fy
                ((dy.val : Int) - 1) (1 + (n.val : Int)))) < r.min
          then ⟨candidateSAD pattern image stride ix iy
              (refineState pattern image stride ix iy min n.val).fx
              (refineState pattern image stride ix iy min n.val).fy
              (1 + (n.val : Int)) ((dx.val : Int) - 1) ((dy.val : Int) - 1),
            (refineState pattern image stride ix iy min n.val).fx * 2 + ((dx.val : Int) - 1),
            (refineState pattern image stride ix iy min n.val).fy * 2 + ((dy.val : Int) - 1)⟩
          else r)
    ∧ (0 ≤ carryFrac (shifted (refineState pattern image stride ix iy min n.val).fx
          ((dx.val : Int) - 1) (1 + (n.val : Int)))
      ∧ carryFrac (shifted (refineState pattern image stride ix iy min n.val).fx
          ((dx.val : Int) - 1) (1 + (n.val : Int))) < 16)
    ∧ (0 ≤ carryFrac (shifted (refineState pattern image stride ix iy min n.val).fy
          ((dy.val : Int) - 1) (1 + (n.val : Int)))
      ∧ carryFrac (shifted (refineState pattern image stride ix iy min n.val).fy
          ((dy.val : Int) - 1) (1 + (n.val : Int))) < 16)
    ∧ (0 ≤ (finalPosition sse2 pattern image stride w h warp).fx
      ∧ (finalPosition sse2 pattern image stride w h warp).fx < 16)
    ∧ (0 ≤ (finalPosition sse2 pattern image stride w h warp).fy
      ∧ (finalPosition sse2 pattern image stride w h warp).fy < 16) := by
  have hb := refineState_bound pattern image stride ix iy min n.val
  have hq := finalPosition_frac_range sse2 pattern image stride w h warp
  refine ⟨fun r => ?_, carryFrac_shifted_range _ n dx hb.1, carryFrac_shifted_range _ n dy hb.2,
    hq.1, hq.2⟩
  rw [candidate_eq]
  rfl

/-! ## The sampled window holds byte values -/

theorem bilinear_range (a b c d u v : Int) (ha : 0 ≤ a ∧ a ≤ 255) (hb : 0 ≤ b ∧ b ≤ 255)
    (hc : 0 ≤ c ∧ c ≤ 255) (hd : 0 ≤ d ∧ d ≤ 255) (hu : 0 ≤ u ∧ u ≤ 16)
    (hv : 0 ≤ v ∧ v ≤ 16) :
    0 ≤ (a * (16 - u) + b * u) * (16 - v) + (c * (16 - u) + d * u) * v
    ∧ (a * (16 - u) + b * u) * (16 - v) + (c * (16 - u) + d * u) * v ≤ 255 * 256 := by
  have h1 : 0 ≤ a * (16 - u) + b * u :=
    add_nonneg (mul_nonneg ha.1 (by omega)) (mul_nonneg hb.1 hu.1)
  have h2 : a * (16 - u) + b * u ≤ 255 * 16 := by
    have e1 : a * (16 - u) ≤ 255 * (16 - u) := mul_le_mul_of_nonneg_right ha.2 (by omega)
    have e2 : b * u ≤ 255 * u := mul_le_mul_of_nonneg_right hb.2 hu.1
    omega
  have h3 : 0 ≤ c * (16 - u) + d * u :=
    add_nonneg (mul_nonneg hc.1 (by omega)) (mul_nonneg hd.1 hu.1)
  have h4 : c * (16 - u) + d * u ≤ 255 * 16 := by
    have e1 : c * (16 - u) ≤ 255 * (16 - u) := mul_le_mul_of_nonneg_right hc.2 (by omega)
    have e2 : d * u ≤ 255 * u := mul_le_mul_of_nonneg_right hd.2 hu.1
    omega
  generalize a * (16 - u) + b * u = A at h1 h2 ⊢
  generalize c * (16 - u) + d * u = C at h3 h4 ⊢
  constructor
  · exact add_nonneg (mul_nonneg h1 (by omega)) (mul_nonneg h3 hv.1)
  · have e1 : A * (16 - v) ≤ 255 * 16 * (16 - v) := mul_le_mul_of_nonneg_right h2 (by omega)
    have e2 : C * v ≤ 255 * 16 * v := mul_le_mul_of_nonneg_right h4 hv.1
    omega

/-- With fractions in `[0, 16]` the bilinear sample at resolution 16 is a byte. -/
theorem sample_range (image : Ptr) (stride x y u v : Int) (hu : 0 ≤ u ∧ u ≤ 16)
    (hv : 0 ≤ v ∧ v ≤ 16) :
    0 ≤ sample kScale image stride x y u v ∧ sample kScale image stride x y u v ≤ 255 := by
  unfold sample kScale
  simp only []
  have hN := bilinear_range (rd (offset image (y * stride + x)) 0)
    (rd (offset image (y * stride + x)) 1) (rd (offset image (y * stride + x)) stride)
    (rd (offset image (y * stride + x)) (stride + 1)) u v
    ⟨rd_nonneg _ _, rd_le _ _⟩ ⟨rd_nonneg _ _, rd_le _ _⟩ ⟨rd_nonneg _ _, rd_le _ _⟩
    ⟨rd_nonneg _ _, rd_le _ _⟩ hu hv
  generalize (rd (offset image (y * stride + x)) 0 * (16 - u)
    + rd (offset image (y * stride + x)) 1 * u) * (16 - v)
    + (rd (offset image (y * stride + x)) stride * (16 - u)
    + rd (offset image (y * stride + x)) (stride + 1) * u) * v = N at hN ⊢
  have e : N.tdiv (16 * 16) = N / (16 * 16) := Int.tdiv_eq_ediv hN.1 (by norm_num)
  rw [e]
  omega

/-- The window that the correlation stage of `Track` samples holds byte values. -/
theorem Track_window_isByteGrid (sse2 : Bool) (pattern image : Ptr) (stride w h : Int)
    (warp : mat32) :
    IsByteGrid (windowValues image stride (finalPosition sse2 pattern image stride w h warp)) := by
  intro i j _ _
  have hq := finalPosition_frac_range sse2 pattern image stride w h warp
  exact sample_range image stride _ _ _ _ ⟨hq.1.1, by omega⟩ ⟨hq.2.1, by omega⟩

/-! ## Phase 2 never worsens the match -/

theorem sum2_eq_sum_product (T : Int → Int → Int) :
    sum2 T = ∑ p ∈ range 16 ×ˢ range 16, T (p.1 : Int) (p.2 : Int) := by
  unfold sum2
  rw [Finset.sum_product]

/-- Cauchy-Schwarz for the covariance of two grids of 256 samples. -/
theorem sum2_cov_sq_le (X Y : Int → Int → Int) :
    (256 * sum2 (fun i j => X i j * Y i j) - sum2 X * sum2 Y)
        * (256 * sum2 (fun i j => X i j * Y i j) - sum2 X * sum2 Y)
      ≤ (256 * sum2 (fun i j => X i j * X i j) - sum2 X * sum2 X)
        * (256 * sum2 (fun i j => Y i j * Y i j) - sum2 Y * sum2 Y) := by
  have h := Finset.sum_mul_sq_le_sq_mul_sq (range 16 ×ˢ range 16)
    (fun p : Nat × Nat => 256 * X (p.1 : Int) (p.2 : Int) - sum2 X)
    (fun p : Nat × Nat => 256 * Y (p.1 : Int) (p.2 : Int) - sum2 Y)
  have hcard : ∑ _p ∈ range 16 ×ˢ range 16, (1 : Int) = 256 := by simp
  have eX := sum2_eq_sum_product X
  have eY := sum2_eq_sum_product Y
  have eXY := sum2_eq_sum_product (fun i j => X i j * Y i j)
  have eXX := sum2_eq_sum_product (fun i j => X i j * X i j)
  have eYY := sum2_eq_sum_product (fun i j => Y i j * Y i j)
  simp only [] at eXY eXX eYY
  have e1 : ∑ p ∈ range 16 ×ˢ range 16,
      (256 * X (p.1 : Int) (p.2 : Int) - sum2 X) * (256 * Y (p.1 : Int) (p.2 : Int) - sum2 Y)
      = 256 * (256 * sum2 (fun i j => X i j * Y i j) - sum2 X * sum2 Y) := by
    have : ∀ p : Nat × Nat,
        (256 * X (p.1 : Int) (p.2 : Int) - sum2 X) * (256 * Y (p.1 : Int) (p.2 : Int) - sum2 Y)
        = 65536 * (X (p.1 : Int) (p.2 : Int) * Y (p.1 : Int) (p.2 : Int))
          - 256 * sum2 Y * X (p.1 : Int) (p.2 : Int)
          - 256 * sum2 X * Y (p.1 : Int) (p.2 : Int) + sum2 X * sum2 Y * 1 := fun p => by ring
    simp only [this, Finset.sum_add_distrib, Finset.sum_sub_distrib, ← Finset.mul_sum, hcard,
      ← eX, ← eY, ← eXY]
    ring
  have e2 : ∑ p ∈ range 16 ×ˢ range 16, (256 * X (p.1 : Int) (p.2 : Int) - sum2 X) ^ 2
      = 256 * (256 * sum2 (fun i j => X i j * X i j) - sum2 X * sum2 X) := by
    have : ∀ p : Nat × Nat, (256 * X (p.1 : Int) (p.2 : Int) - sum2 X) ^ 2
        = 65536 * (X (p.1 : Int) (p.2 : Int) * X (p.1 : Int) (p.2 : Int))
          - 512 * sum2 X * X (p.1 : Int) (p.2 : Int) + sum2 X * sum2 X * 1 := fun p => by ring
    simp only [this, Finset.sum_add_distrib, Finset.sum_sub_distrib, ← Finset.mul_sum, hcard,
      ← eX, ← eXX]
    ring
  have e3 : ∑ p ∈ range 16 ×ˢ range 16, (256 * Y (p.1 : Int) (p.2 : Int) - sum2 Y) ^ 2
      = 256 * (256 * sum2 (fun i j => Y i j * Y i j) - sum2 Y * sum2 Y) := by
    have : ∀ p : Nat × Nat, (256 * Y (p.1 : Int) (p.2 : Int) - sum2 Y) ^ 2
        = 65536 * (Y (p.1 : Int) (p.2 : Int) * Y (p.1 : Int) (p.2 : Int))
          - 512 * sum2 Y * Y (p.1 : Int) (p.2 : Int) + sum2 Y * sum2 Y * 1 := fun p => by ring
    simp only [this, Finset.sum_add_distrib, Finset.sum_sub_distrib, ← Finset.mul_sum, hcard,
      ← eY, ← eYY]
    ring
  rw [e1, e2, e3] at h
  nlinarith [h]

theorem cov_sq_arith (a b p q c S : Int) (h0 : 0 ≤ c - a * b) (hS : 256 * c ≤ S)
    (cs : (256 * S - 256 * a * (256 * b)) * (256 * S - 256 * a * (256 * b))
      ≤ (256 * (256 * p) - 256 * a * (256 * a)) * (256 * (256 * q) - 256 * b * (256 * b))) :
    (c - a * b) * (c - a * b) ≤ (p - a * a) * (q - b * b) := by
  have hA : 65536 * (c - a * b) ≤ 256 * S - 256 * a * (256 * b) := by
    have e : 256 * a * (256 * b) = 65536 * (a * b) := by ring
    rw [e]
    linarith
  have hA0 : 0 ≤ 65536 * (c - a * b) := mul_nonneg (by norm_num) h0
  have hsq : (65536 * (c - a * b)) * (65536 * (c - a * b))
      ≤ (256 * S - 256 * a * (256 * b)) * (256 * S - 256 * a * (256 * b)) :=
    mul_le_mul hA hA hA0 (le_trans hA0 hA)
  have e1 : (65536 * (c - a * b)) * (65536 * (c - a * b))
      = 4294967296 * ((c - a * b) * (c - a * b)) := by ring
  have e2 : (256 * (256 * p) - 256 * a * (256 * a)) * (256 * (256 * q) - 256 * b * (256 * b))
      = 4294967296 * ((p - a * a) * (q - b * b)) := by ring
  rw [e1] at hsq
  rw [e2] at cs
  exact le_of_mul_le_mul_left (le_trans hsq cs) (by norm_num)

/-- Where the four sums behind the means and the variance terms are
multiples of 256 and the truncated covariance is not negative, the squared
covariance numerator is at most the variance product. -/
theorem cov_sq_le_of_exact (X Y : Int → Int → Int) (hX : IsByteGrid X) (hY : IsByteGrid Y)
    (hdiv : (accumulate X Y).sX % 256 = 0 ∧ (accumulate X Y).sY % 256 = 0
      ∧ (accumulate X Y).sXX % 256 = 0 ∧ (accumulate X Y).sYY % 256 = 0)
    (hcov : (accumulate X Y).divN.sX * (accumulate X Y).divN.sY ≤ (accumulate X Y).divN.sXY) :
    (accumulate X Y).divN.cov
        = (accumulate X Y).divN.sXY - (accumulate X Y).divN.sX * (accumulate X Y).divN.sY
    ∧ (accumulate X Y).divN.cov * (accumulate X Y).divN.cov
        ≤ (accumulate X Y).divN.varX * (accumulate X Y).divN.varY := by
  obtain ⟨a1, a2, a3, a4, a5⟩ := accumulate_byte X Y hX hY
  obtain ⟨d1, d2, d3, d4, d5⟩ := divN_byte X Y hX hY
  obtain ⟨vx, _⟩ := varX_byte X Y hX hY
  obtain ⟨vy, _⟩ := varY_byte X Y hX hY
  have bX := sum2_byte_bounds X hX
  have bY := sum2_byte_bounds Y hY
  have bXY := sum2_mul_byte_bounds X Y hX hY
  have cs := sum2_cov_sq_le X Y
  obtain ⟨m1, m2, m3, m4⟩ := hdiv
  have hsX : sum2 X = 256 * (sum2 X / 256) := by omega
  have hsY : sum2 Y = 256 * (sum2 Y / 256) := by omega
  have hsXX : sum2 (fun i j => X i j * X i j) = 256 * (sum2 (fun i j => X i j * X i j) / 256) := by
    omega
  have hsYY : sum2 (fun i j => Y i j * Y i j) = 256 * (sum2 (fun i j => Y i j * Y i j) / 256) := by
    omega
  have hsXY : 256 * (sum2 (fun i j => X i j * Y i j) / 256) ≤ sum2 (fun i j => X i j * Y i j) :=
    Int.mul_ediv_self_le (by norm_num)
  have hcovI : (sum2 X / 256) * (sum2 Y / 256) ≤ sum2 (fun i j => X i j * Y i j) / 256 := by
    rw [← d1, ← d2, ← d5]
    exact_mod_cast hcov
  have hmX : 0 ≤ sum2 X / 256 ∧ sum2 X / 256 ≤ 255 := by omega
  have hmY : 0 ≤ sum2 Y / 256 ∧ sum2 Y / 256 ≤ 255 := by omega
  have hprod : (sum2 X / 256) * (sum2 Y / 256) ≤ 255 * 255 :=
    mul_le_mul hmX.2 hmY.2 hmY.1 (by norm_num)
  have hprod0 : 0 ≤ (sum2 X / 256) * (sum2 Y / 256) := mul_nonneg hmX.1 hmY.1
  have ecovI : (((accumulate X Y).divN.cov : Nat) : Int)
      = sum2 (fun i j => X i j * Y i j) / 256 - (sum2 X / 256) * (sum2 Y / 256) := by
    simp only [Sums.cov, usub, umul, UINT, toUint_cast]
    push_cast
    rw [d1, d2, d5]
    generalize sum2 (fun i j => X i j * Y i j) / 256 = c at *
    generalize (sum2 X / 256) * (sum2 Y / 256) = p at *
    omega
  have ecov : (accumulate X Y).divN.cov
      = (accumulate X Y).divN.sXY - (accumulate X Y).divN.sX * (accumulate X Y).divN.sY := by
    have : (((accumulate X Y).divN.cov : Nat) : Int)
        = (((accumulate X Y).divN.sXY - (accumulate X Y).divN.sX * (accumulate X Y).divN.sY
            : Nat) : Int) := by
      rw [Nat.cast_sub hcov, Nat.cast_mul, d1, d2, d5]; exact ecovI
    exact_mod_cast this
  refine ⟨ecov, ?_⟩
  have goalI : (((accumulate X Y).divN.cov : Nat) : Int) * (((accumulate X Y).divN.cov : Nat) : Int)
      ≤ (((accumulate X Y).divN.varX : Nat) : Int) * (((accumulate X Y).divN.varY : Nat) : Int) := by
    rw [ecovI, vx, vy]
    generalize sum2 X / 256 = a at *
    generalize sum2 Y / 256 = b at *
    generalize sum2 (fun i j => X i j * X i j) / 256 = p at *
    generalize sum2 (fun i j => Y i j * Y i j) / 256 = q at *
    generalize sum2 (fun i j => X i j * Y i j) / 256 = c at *
    rw [hsX, hsY, hsXX, hsYY] at cs
    generalize sum2 (fun i j => X i j * Y i j) = S at *
    exact cov_sq_arith a b p q c S (by omega) hsXY cs
  exact_mod_cast goalI

theorem Track_confidence_eq (sse2 : Bool) (pattern image : Ptr) (stride w h : Int)
    (warp : mat32) :
    (Track sse2 pattern image stride w h warp).2
      = fdivSqrt (trackSums sse2 pattern image stride w h warp).divN.cov
          (umul (trackSums sse2 pattern image stride w h warp).divN.varX
            (trackSums sse2 pattern image stride w h warp).divN.varY) := by
  rw [Track_confidence]
  simp only [correlation, trackSums]

theorem quot_le_one (n r : Nat) (hr : r ≠ 0) (h : n * n ≤ r) :
    (-1 : ℝ) ≤ (n : ℝ) / Real.sqrt (r : ℝ) ∧ (n : ℝ) / Real.sqrt (r : ℝ) ≤ 1 := by
  have hr0 : (0 : ℝ) < (r : ℝ) := Nat.cast_pos.mpr (Nat.pos_of_ne_zero hr)
  have hs : (0 : ℝ) < Real.sqrt (r : ℝ) := Real.sqrt_pos.mpr hr0
  have hn : (0 : ℝ) ≤ (n : ℝ) := Nat.cast_nonneg n
  have hsq : (n : ℝ) ^ 2 ≤ (r : ℝ) := by
    have : ((n * n : Nat) : ℝ) ≤ (r : ℝ) := Nat.cast_le.mpr h
    rw [sq]
    exact_mod_cast this
  have hle : (n : ℝ) ≤ Real.sqrt (r : ℝ) := (Real.le_sqrt hn hr0.le).mpr hsq
  constructor
  · have : (0 : ℝ) ≤ (n : ℝ) / Real.sqrt (r : ℝ) := div_nonneg hn hs.le
    linarith
  · exact (div_le_one hs).mpr hle

/-- C1 (amended): for every template, search image and initial affine
position such that the four accumulated sums `sX`, `sY`, `sXX`, `sYY` are
multiples of 256 (their division by `N` loses nothing) and the truncated
covariance `sXY - sX*sY` is not negative, the covariance numerator is that
difference (no wrap-around), its square is at most the variance product,
and the confidence returned by `Track` lies in the closed interval
`[-1, 1]` whenever it is not NaN. -/
theorem Track_confidence_unit_range (sse2 : Bool) (pattern image : Ptr) (stride w h : Int)
    (warp : mat32)
    (hdiv : (trackSums sse2 pattern image stride w h warp).sX % 256 = 0
      ∧ (trackSums sse2 pattern image stride w h warp).sY % 256 = 0
      ∧ (trackSums sse2 pattern image stride w h warp).sXX % 256 = 0
      ∧ (trackSums sse2 pattern image stride w h warp).sYY % 256 = 0)
    (hcov : (trackSums sse2 pattern image stride w h warp).divN.sX
        * (trackSums sse2 pattern image stride w h warp).divN.sY
      ≤ (trackSums sse2 pattern image stride w h warp).divN.sXY) :
    (trackSums sse2 pattern image stride w h warp).divN.cov
      = (trackSums sse2 pattern image stride w h warp).divN.sXY
        - (trackSums sse2 pattern image stride w h warp).divN.sX
          * (trackSums sse2 pattern image stride w h warp).divN.sY
    ∧ (trackSums sse2 pattern image stride w h warp).divN.cov
        * (trackSums sse2 pattern image stride w h warp).divN.cov
      ≤ (trackSums sse2 pattern image stride w h warp).divN.varX
        * (trackSums sse2 pattern image stride w h warp).divN.varY
    ∧ ((Track sse2 pattern image stride w h warp).2 = .nan
      ∨ ((Track sse2 pattern image stride w h warp).2
          = .quot (trackSums sse2 pattern image stride w h warp).divN.cov
              ((trackSums sse2 pattern image stride w h warp).divN.varX
                * (trackSums sse2 pattern image stride w h warp).divN.varY)
        ∧ (Track sse2 pattern image stride w h warp).2.HasValue
            (((trackSums sse2 pattern image stride w h warp).divN.cov : ℝ)
              / Real.sqrt (((trackSums sse2 pattern image stride w h warp).divN.varX
                * (trackSums sse2 pattern image stride w h warp).divN.varY : Nat) : ℝ))
        ∧ (-1 : ℝ) ≤ ((trackSums sse2 pattern image stride w h warp).divN.cov : ℝ)
              / Real.sqrt (((trackSums sse2 pattern image stride w h warp).divN.varX
                * (trackSums sse2 pattern image stride w h warp).divN.varY : Nat) : ℝ)
        ∧ ((trackSums sse2 pattern image stride w h warp).divN.cov : ℝ)
              / Real.sqrt (((trackSums sse2 pattern image stride w h warp).divN.varX
                * (trackSums sse2 pattern image stride w h warp).divN.varY : Nat) : ℝ) ≤ 1)) := by
  have hXb := patternValues_isByteGrid pattern
  have hYb := Track_window_isByteGrid sse2 pattern image stride w h warp
  have hcv := (cov_sq_le_of_exact _ _ hXb hYb hdiv hcov).1
  have hsq := (cov_sq_le_of_exact _ _ hXb hYb hdiv hcov).2
  have hprod : (trackSums sse2 pattern image stride w h warp).divN.varX
      * (trackSums sse2 pattern image stride w h warp).divN.varY < 4294967296 := by
    calc (trackSums sse2 pattern image stride w h warp).divN.varX
          * (trackSums sse2 pattern image stride w h warp).divN.varY
        ≤ 65025 * 65025 := Nat.mul_le_mul (varX_byte _ _ hXb hYb).2 (varY_byte _ _ hXb hYb).2
      _ < 4294967296 := by norm_num
  have hu : umul (trackSums sse2 pattern image stride w h warp).divN.varX
      (trackSums sse2 pattern image stride w h warp).divN.varY
      = (trackSums sse2 pattern image stride w h warp).divN.varX
        * (trackSums sse2 pattern image stride w h warp).divN.varY := Nat.mod_eq_of_lt hprod
  refine ⟨hcv, hsq, ?_⟩
  clear hcv
  rw [Track_confidence_eq, hu]
  change (trackSums sse2 pattern image stride w h warp).divN.cov
      * (trackSums sse2 pattern image stride w h warp).divN.cov
    ≤ (trackSums sse2 pattern image stride w h warp).divN.varX
      * (trackSums sse2 pattern image stride w h warp).divN.varY at hsq
  generalize (trackSums sse2 pattern image stride w h warp).divN.cov = n at hsq ⊢
  generalize (trackSums sse2 pattern image stride w h warp).divN.varX
    * (trackSums sse2 pattern image stride w h warp).divN.varY = r at hsq ⊢
  by_cases hr : r = 0
  · left
    have hn : n = 0 := by
      subst hr
      have : n * n = 0 := Nat.le_zero.mp hsq
      rcases Nat.mul_eq_zero.mp this with h0 | h0 <;> exact h0
    simp [fdivSqrt, hr, hn]
  · right
    have hq : fdivSqrt n r = .quot n r := by simp [fdivSqrt, hr]
    rw [hq]
    exact ⟨rfl, rfl, quot_le_one n r hr hsq⟩

/-! ## Further instances of the conditional statements -/

theorem correlation_variance_no_wrap_witness :
    (accumulate (patternValues spotPattern)
        (windowValues spotImage 17
          (finalPosition true spotPattern spotImage 17 17 17 (translation 8 8)))).divN.varX
      * (accumulate (patternValues spotPattern)
        (windowValues spotImage 17
          (finalPosition true spotPattern spotImage 17 17 17 (translation 8 8)))).divN.varY
      < 4294967296 :=
  (correlation_variance_no_wrap (patternValues spotPattern)
    (windowValues spotImage 17
      (finalPosition true spotPattern spotImage 17 17 17 (translation 8 8)))
    (patternValues_isByteGrid spotPattern)
    (Track_window_isByteGrid true spotPattern spotImage 17 17 17 (translation 8 8))).2.2.2.2.1

theorem step_trackSums :
    trackSums true stepPattern stepImage 17 17 17 (translation 8 8)
      = ⟨2048, 2048, 32768, 32768, 32768⟩ := by
  unfold trackSums
  rw [step_finalPosition]
  decide!

theorem Track_confidence_unit_range_witness :
    ((trackSums true stepPattern stepImage 17 17 17 (translation 8 8)).sX % 256 = 0
      ∧ (trackSums true stepPattern stepImage 17 17 17 (translation 8 8)).sY % 256 = 0
      ∧ (trackSums true stepPattern stepImage 17 17 17 (translation 8 8)).sXX % 256 = 0
      ∧ (trackSums true stepPattern stepImage 17 17 17 (translation 8 8)).sYY % 256 = 0)
    ∧ (trackSums true stepPattern stepImage 17 17 17 (translation 8 8)).divN.sX
        * (trackSums true stepPattern stepImage 17 17 17 (translation 8 8)).divN.sY
      ≤ (trackSums true stepPattern stepImage 17 17 17 (translation 8 8)).divN.sXY
    ∧ (trackSums true stepPattern stepImage 17 17 17 (translation 8 8)).divN.cov
        * (trackSums true stepPattern stepImage 17 17 17 (translation 8 8)).divN.cov
      ≤ (trackSums true stepPattern stepImage 17 17 17 (translation 8 8)).divN.varX
        * (trackSums true stepPattern stepImage 17 17 17 (translation 8 8)).divN.varY :=
  ⟨by rw [step_trackSums]; decide, by rw [step_trackSums]; decide,
    (Track_confidence_unit_range true stepPattern stepImage 17 17 17 (translation 8 8)
      (by rw [step_trackSums]; decide) (by rw [step_trackSums]; decide)).2.1⟩

end libmv
